import Mathlib

/-!
# go-http-mock-client: cache and response resolution

A shallow embedding of `cache.go`, `client.go` and `config.go`.

Modelling conventions.

* `time.Time` and `time.Duration` are integers counting nanoseconds;
  `After` is `>`, `Before` is `<`, `Add` is `+`.  Every `time.Now()` of the source is an
  explicit argument.
* A Go `map[string]V` is an association list `List (String × V)` whose keys are pairwise
  distinct (`KeysNodup`); `m[k]`, `delete(m, k)` and `m[k] = v` are `mapGet`, `mapDelete` and
  `mapSet`.
* Every `for ... range m` of the source takes the order in which the entries are visited as an
  explicit list argument (a *scan*); a scan of `m` is any permutation of `m`.
* A pointer `*Response` is an `Option`: `none` is `nil`.  An `interface{}` is an `Option β`,
  `none` being the nil interface and `β` the type of the values it can hold.
* The mutex operations are not modelled: every operation runs atomically on the state.
-/

namespace HttpMockClient

/-! ## Go maps -/

/-- The lookup `m[k]`: `none` when the key is absent. -/
def mapGet {α : Type} (m : List (String × α)) (k : String) : Option α :=
  match m with
  | [] => none
  | (k', v) :: rest => if k' = k then some v else mapGet rest k

/-- The builtin `delete(m, k)`. -/
def mapDelete {α : Type} (m : List (String × α)) (k : String) : List (String × α) :=
  m.filter (fun p => decide (p.1 ≠ k))

/-- The assignment `m[k] = v`. -/
def mapSet {α : Type} (m : List (String × α)) (k : String) (v : α) : List (String × α) :=
  mapDelete m k ++ [(k, v)]

/-- Keys of a Go map are pairwise distinct. -/
def KeysNodup {α : Type} (m : List (String × α)) : Prop :=
  (m.map Prod.fst).Nodup

instance {α : Type} (m : List (String × α)) : Decidable (KeysNodup m) := by
  unfold KeysNodup; infer_instance

/-! ## Time -/

/-- The zero value of `time.Time`, the initial value of `oldestTime` in `Cache.set`. -/
def zeroTime : Int := 0

/-- The constant `time.Second`. -/
def Second : Int := 1000000000

/-- The constant `time.Minute`. -/
def Minute : Int := 60 * Second

/-- Two's-complement wrap-around of 64-bit signed arithmetic. -/
def wrap64 (x : Int) : Int := (x + 2 ^ 63) % 2 ^ 64 - 2 ^ 63

/-! ## Data model (`client.go`, `cache.go`, `config.go`) -/

/-- The struct `Response` of `client.go`.  `Headers` is an `http.Header`, a map from header name
to the list of its values; `Body` holds the bytes of the body as text, the nil slice being the
empty string. -/
structure Response (β : Type) where
  StatusCode : Int
  Headers : List (String × List String)
  Body : String
  ParsedBody : Option β
  CachedAt : Option Int
  ContentType : String
deriving DecidableEq

/-- The struct `CacheEntry` of `cache.go`. -/
structure CacheEntry (β : Type) where
  Response : Option (Response β)
  CreatedAt : Int
  ExpiresAt : Int
deriving DecidableEq

/-- The struct `Cache` of `cache.go` (without its mutex). -/
structure Cache (β : Type) where
  entries : List (String × CacheEntry β)
  maxEntries : Int
deriving DecidableEq

variable {β : Type}

/-! ## `cache.go` -/

/-- The method `Cache.get`, called at time `now`: the pair `(*Response, bool)` it returns. -/
def Cache.get (c : Cache β) (key : String) (now : Int) : Option (Response β) × Bool :=
  match mapGet c.entries key with
  | none => (none, false)
  | some entry =>
    if now > entry.ExpiresAt then (none, false)
    else (entry.Response, true)

/-- The loop of `Cache.set` that looks for the oldest entry, run over the entries in the order
`scan`, from the loop state `(oldestKey, oldestTime)`. -/
def oldestLoop (scan : List (String × CacheEntry β)) (oldestKey : String) (oldestTime : Int) :
    String × Int :=
  match scan with
  | [] => (oldestKey, oldestTime)
  | (k, v) :: rest =>
    if oldestKey = "" ∨ v.CreatedAt < oldestTime then oldestLoop rest k v.CreatedAt
    else oldestLoop rest oldestKey oldestTime

/-- The key that `Cache.set` deletes when the cache is full. -/
def evictionVictim (scan : List (String × CacheEntry β)) : String :=
  (oldestLoop scan "" zeroTime).1

/-- The method `Cache.set`, called at time `now`; `scan` is the order in which its `range` loop
visits the entries. -/
def Cache.set (c : Cache β) (scan : List (String × CacheEntry β)) (key : String)
    (response : Option (Response β)) (ttl : Int) (now : Int) : Cache β :=
  let entries :=
    if c.maxEntries > 0 ∧ (c.entries.length : Int) ≥ c.maxEntries then
      mapDelete c.entries (evictionVictim scan)
    else c.entries
  { c with
    entries := mapSet entries key
      { Response := response, CreatedAt := now, ExpiresAt := now + ttl } }

/-- The loop of `Cache.cleanExpiredEntries` over the entries in the order `scan`. -/
def cleanLoop (now : Int) (scan : List (String × CacheEntry β))
    (entries : List (String × CacheEntry β)) : List (String × CacheEntry β) :=
  match scan with
  | [] => entries
  | (key, entry) :: rest =>
    if now > entry.ExpiresAt then cleanLoop now rest (mapDelete entries key)
    else cleanLoop now rest entries

/-- The method `Cache.cleanExpiredEntries`, called at time `now`. -/
def Cache.cleanExpiredEntries (c : Cache β) (scan : List (String × CacheEntry β)) (now : Int) :
    Cache β :=
  { c with entries := cleanLoop now scan c.entries }

/-! ## `config.go` -/

/-- The struct `CacheConfig`. -/
structure CacheConfig where
  Enabled : Bool
  TTL : Int
  MaxEntries : Int
deriving DecidableEq

/-- The struct `ResponseConfig`. -/
structure ResponseConfig (β : Type) where
  StatusCode : Int
  Headers : List (String × String)
  Body : Option β
deriving DecidableEq

/-- The struct `RouteConfig`. -/
structure RouteConfig (β : Type) where
  Path : String
  Method : String
  Headers : List (String × String)
  Body : Option β
  QueryParams : List (String × String)
  Timeout : Int
  ExpectedResp : Option (ResponseConfig β)
  DefaultResps : List (String × ResponseConfig β)
  Cache : CacheConfig
deriving DecidableEq

/-- The struct `Config`. -/
structure Config (β : Type) where
  GlobalDefaults : List (String × ResponseConfig β)
  GlobalCache : CacheConfig
  Routes : List (String × RouteConfig β)
deriving DecidableEq

/-- The zero value of `ResponseConfig`, which a Go map lookup yields for an absent key. -/
def ResponseConfig.zero : ResponseConfig β :=
  { StatusCode := 0, Headers := [], Body := none }

/-! ## `client.go` -/

/-- The struct `Client`: the loaded configuration and the cache it owns. -/
structure Client (β : Type) where
  config : Config β
  cache : Cache β

/-- The standard-library functions the client calls, taken as parameters:
`marshal` is `json.Marshal` on a non-nil value, `marshalQuery` is `json.Marshal` on a
`map[string]string` (which cannot fail), `canonicalKey` is `textproto.CanonicalMIMEHeaderKey`. -/
structure Env (β : Type) where
  marshal : β → Except String String
  marshalQuery : List (String × String) → String
  canonicalKey : String → String

/-- The function `json.Marshal` on an `interface{}`: the nil interface encodes as `null`. -/
def jsonMarshal (env : Env β) (v : Option β) : Except String String :=
  match v with
  | none => .ok "null"
  | some b => env.marshal b

/-- The text `fmt.Sprintf("%d", n)`. -/
def sprintfD (n : Int) : String := toString n

/-- The method `Client.getCacheKey`; the errors of `json.Marshal` are dropped as in the source,
leaving nil bytes. -/
def getCacheKey (env : Env β) (routeName : String) (route : RouteConfig β) : String :=
  let key := routeName ++ "_" ++ route.Method ++ "_" ++ route.Path
  let key :=
    if route.QueryParams.length > 0 then key ++ env.marshalQuery route.QueryParams else key
  let key :=
    if route.Body.isSome ∧ route.Method ≠ "GET" then
      key ++ (match jsonMarshal env route.Body with
              | .ok bodyKey => bodyKey
              | .error _ => "")
    else key
  key

/-- The method `Client.InvalidateCache`. -/
def InvalidateCache (c : Client β) : Client β :=
  { c with cache := { c.cache with entries := [] } }

/-- The function `strings.HasPrefix`. -/
def HasPrefix (s pre : String) : Bool := pre.data.isPrefixOf s.data

/-- The loop of `Client.InvalidateCacheForRoute` over the keys in the order `scan`. -/
def invalidateLoop (routeName : String) (scan : List (String × CacheEntry β))
    (entries : List (String × CacheEntry β)) : List (String × CacheEntry β) :=
  match scan with
  | [] => entries
  | (key, _) :: rest =>
    if HasPrefix key (routeName ++ "_") then invalidateLoop routeName rest (mapDelete entries key)
    else invalidateLoop routeName rest entries

/-- The method `Client.InvalidateCacheForRoute`. -/
def InvalidateCacheForRoute (c : Client β) (scan : List (String × CacheEntry β))
    (routeName : String) : Client β :=
  { c with cache := { c.cache with entries := invalidateLoop routeName scan c.cache.entries } }

/-- The method `http.Header.Set`. -/
def headerSet (canon : String → String) (h : List (String × List String)) (key value : String) :
    List (String × List String) :=
  mapSet h (canon key) [value]

/-- The method `http.Header.Get`. -/
def headerGet (canon : String → String) (h : List (String × List String)) (key : String) :
    String :=
  match mapGet h (canon key) with
  | some (v :: _) => v
  | _ => ""

/-- The loop of `ExecuteWithContext` that fills the response headers, visiting the configured
headers in the order `scan`. -/
def buildHeaders (canon : String → String) (scan : List (String × String))
    (headers : List (String × List String)) : List (String × List String) :=
  match scan with
  | [] => headers
  | (key, value) :: rest => buildHeaders canon rest (headerSet canon headers key value)

/-- The errors `ExecuteWithContext` returns. -/
inductive ExecError where
  | routeNotFound (routeName : String)
  | marshalFailed (msg : String)
  | ctxErr
deriving DecidableEq

/-- What one call of `ExecuteWithContext` reads from its environment: the three readings of
the clock (`tGet` inside `cache.get`, `tStamp` for `CachedAt`, `tSet` inside `cache.set`), the
orders in which its two map loops visit their maps, and whether the `select` takes the
`ctx.Done()` branch, that is, whether the context is cancelled before the delay elapses. -/
structure Call (β : Type) where
  tGet : Int
  tStamp : Int
  tSet : Int
  headerScan : List (String × String)
  evictScan : List (String × CacheEntry β)
  ctxDoneFirst : Bool

/-- The pair `(*Response, error)` returned by `ExecuteWithContext` together with the cache it
leaves behind. -/
structure Outcome (β : Type) where
  resp : Option (Response β)
  err : Option ExecError
  cache : Cache β

/-- The response configuration `ExecuteWithContext` resolves for a route. -/
def selectResponseConfig (cfg : Config β) (route : RouteConfig β) : ResponseConfig β :=
  match route.ExpectedResp with
  | some expected => expected
  | none =>
    let statusCode : Int := 200
    match mapGet route.DefaultResps (sprintfD statusCode) with
    | some defaultResp => defaultResp
    | none =>
      match mapGet cfg.GlobalDefaults (sprintfD statusCode) with
      | some defaultResp => defaultResp
      | none => (mapGet cfg.GlobalDefaults "2xx").getD ResponseConfig.zero

/-- The cache configuration that governs a route. -/
def effectiveCacheConfig (cfg : Config β) (route : RouteConfig β) : CacheConfig :=
  if !route.Cache.Enabled then cfg.GlobalCache else route.Cache

/-- Lines 142-148 of `ExecuteWithContext`: the cache is read only when the governing policy is
enabled and the method is `GET`; otherwise nothing is found. -/
def lookupCached (env : Env β) (c : Client β) (call : Call β) (routeName : String)
    (route : RouteConfig β) : Option (Response β) × Bool :=
  if (effectiveCacheConfig c.config route).Enabled ∧ route.Method = "GET" then
    c.cache.get (getCacheKey env routeName route) call.tGet
  else (none, false)

/-- Lines 167-189 of `ExecuteWithContext`: the headers are built, the body is marshalled when
it is not nil, and the response is assembled; a failure of `json.Marshal` is returned.  The
loop over `responseConfig.Headers` visits them in the order `call.headerScan`. -/
def assembleResponse (env : Env β) (call : Call β) (responseConfig : ResponseConfig β) :
    Except String (Response β) :=
  let headers := buildHeaders env.canonicalKey call.headerScan []
  let marshalled : Except String String :=
    match responseConfig.Body with
    | none => .ok ""
    | some b => jsonMarshal env (some b)
  match marshalled with
  | .error e => .error e
  | .ok bodyBytes =>
    .ok { StatusCode := responseConfig.StatusCode
          Headers := headers
          Body := bodyBytes
          ParsedBody := responseConfig.Body
          CachedAt := none
          ContentType := headerGet env.canonicalKey headers "Content-Type" }

/-- Lines 191-201 of `ExecuteWithContext`: the response is stamped and stored when the
governing policy is enabled, the method is `GET` and the status code is in `[200, 300)`.
The result is the response as returned and the cache as left. -/
def writeBack (env : Env β) (c : Client β) (call : Call β) (routeName : String)
    (route : RouteConfig β) (response : Response β) : Response β × Cache β :=
  let cacheConfig := effectiveCacheConfig c.config route
  if cacheConfig.Enabled ∧ route.Method = "GET" ∧ response.StatusCode ≥ 200 ∧
      response.StatusCode < 300 then
    let cacheKey := getCacheKey env routeName route
    let ttl := wrap64 (cacheConfig.TTL * Second)
    let ttl := if ttl = 0 then 5 * Minute else ttl
    let response := { response with CachedAt := some call.tStamp }
    (response, c.cache.set call.evictScan cacheKey (some response) ttl call.tSet)
  else (response, c.cache)

/-- The method `Client.ExecuteWithContext`. -/
def ExecuteWithContext (env : Env β) (c : Client β) (call : Call β) (routeName : String) :
    Outcome β :=
  match mapGet c.config.Routes routeName with
  | none => { resp := none, err := some (.routeNotFound routeName), cache := c.cache }
  | some route =>
    let cached := lookupCached env c call routeName route
    if cached.2 then { resp := cached.1, err := none, cache := c.cache }
    else
      match assembleResponse env call (selectResponseConfig c.config route) with
      | .error e => { resp := none, err := some (.marshalFailed e), cache := c.cache }
      | .ok response =>
        let stored := writeBack env c call routeName route response
        if route.Timeout > 0 then
          if call.ctxDoneFirst then { resp := none, err := some .ctxErr, cache := stored.2 }
          else { resp := some stored.1, err := none, cache := stored.2 }
        else { resp := some stored.1, err := none, cache := stored.2 }

/-- The method `Client.Execute`: a call whose context is never cancelled. -/
def Execute (env : Env β) (c : Client β) (call : Call β) (routeName : String) : Outcome β :=
  ExecuteWithContext env c { call with ctxDoneFirst := false } routeName

/-! ## Reachable cache states -/

/-- One write on the cache: `Cache.set`, `Cache.cleanExpiredEntries`, `Client.InvalidateCache` or
`Client.InvalidateCacheForRoute`, each loop visiting the entries in some order. -/
inductive CacheStep : Cache β → Cache β → Prop where
  | set (c : Cache β) (scan : List (String × CacheEntry β)) (key : String)
      (response : Option (Response β)) (ttl now : Int) (hs : scan.Perm c.entries) :
      CacheStep c (c.set scan key response ttl now)
  | clean (c : Cache β) (scan : List (String × CacheEntry β)) (now : Int)
      (hs : scan.Perm c.entries) : CacheStep c (c.cleanExpiredEntries scan now)
  | invalidate (cl : Client β) : CacheStep cl.cache (InvalidateCache cl).cache
  | invalidateRoute (cl : Client β) (scan : List (String × CacheEntry β)) (routeName : String)
      (hs : scan.Perm cl.cache.entries) :
      CacheStep cl.cache (InvalidateCacheForRoute cl scan routeName).cache

/-- The cache states reachable from the empty cache of `NewClient` with the given
`maxEntries`. -/
inductive Reachable (maxEntries : Int) : Cache β → Prop where
  | empty : Reachable maxEntries { entries := [], maxEntries := maxEntries }
  | step (c c' : Cache β) (hc : Reachable maxEntries c) (hstep : CacheStep c c') :
      Reachable maxEntries c'

/-! ## Concrete states used by the examples -/

/-- A response as the cache tests build it. -/
def sampleResponse : Response String :=
  { StatusCode := 200, Headers := [], Body := "data", ParsedBody := none, CachedAt := none,
    ContentType := "" }

/-- An entry created at time `created` that expires at time `expires`. -/
def sampleEntry (created expires : Int) : CacheEntry String :=
  { Response := some sampleResponse, CreatedAt := created, ExpiresAt := expires }

/-- An unbounded cache holding one entry under `k` that expires at time 5. -/
def boundaryCache : Cache String :=
  { entries := [("k", sampleEntry 0 5)], maxEntries := 0 }

/-- A full cache of capacity 2 whose older entry is stored under the empty key. -/
def emptyKeyCache : Cache String :=
  { entries := [("", sampleEntry 1 100), ("a", sampleEntry 2 100)], maxEntries := 2 }

/-- The empty cache of capacity 2. -/
def emptyCache2 : Cache String :=
  { entries := [], maxEntries := 2 }

/-- An environment for the examples: bodies are Go strings, `json.Marshal` quotes them (exact
for texts without characters that JSON escapes) and lists a query map in the order given;
header names are already canonical. -/
def sampleEnv : Env String :=
  { marshal := fun b => .ok ("\"" ++ b ++ "\"")
    marshalQuery := fun q =>
      "\x7b" ++ String.intercalate "," (q.map fun p => "\"" ++ p.1 ++ "\":\"" ++ p.2 ++ "\"")
        ++ "\x7d"
    canonicalKey := fun k => k }

/-- A call that reads the clock at `t`, `t + 1` and `t + 2`. -/
def sampleCall (t : Int) (headerScan : List (String × String))
    (evictScan : List (String × CacheEntry String)) (ctxDoneFirst : Bool) : Call String :=
  { tGet := t, tStamp := t + 1, tSet := t + 2, headerScan := headerScan, evictScan := evictScan,
    ctxDoneFirst := ctxDoneFirst }

/-- A route with the given method, path, delay, explicit response and fallback table, and no
cache policy of its own. -/
def sampleRoute (method path : String) (timeout : Int)
    (expected : Option (ResponseConfig String))
    (defaults : List (String × ResponseConfig String)) : RouteConfig String :=
  { Path := path, Method := method, Headers := [], Body := none, QueryParams := [],
    Timeout := timeout, ExpectedResp := expected, DefaultResps := defaults,
    Cache := { Enabled := false, TTL := 0, MaxEntries := 0 } }

/-- The explicit response of `test-route` in `client_test.go`, its body a string. -/
def testExpected : ResponseConfig String :=
  { StatusCode := 200, Headers := [("Content-Type", "application/json")],
    Body := some "test response" }

/-- The configuration of `client_test.go`: caching enabled globally with a TTL of 300 seconds,
the routes `test-route` and `timeout-route`, and a global `2xx` default. -/
def testConfig : Config String :=
  { GlobalDefaults :=
      [("2xx", { StatusCode := 200, Headers := [("Content-Type", "application/json")],
                 Body := some "success" })]
    GlobalCache := { Enabled := true, TTL := 300, MaxEntries := 0 }
    Routes :=
      [("test-route", sampleRoute "GET" "/test" 0 (some testExpected) []),
       ("timeout-route", sampleRoute "GET" "/timeout" 1 none [])] }

/-- The client `NewClient` builds from `testConfig`. -/
def testClient : Client String :=
  { config := testConfig, cache := { entries := [], maxEntries := 0 } }

/-- The `testClient` after one cancelled call of `timeout-route`. -/
def testClientAfterCancel : Client String :=
  { config := testConfig
    cache := (ExecuteWithContext sampleEnv testClient
      (sampleCall 10 [("Content-Type", "application/json")] [] true) "timeout-route").cache }

/-- A client without caching whose route `r` declares an explicit response with a nil body. -/
def nilBodyClient : Client String :=
  { config :=
      { GlobalDefaults := []
        GlobalCache := { Enabled := false, TTL := 300, MaxEntries := 0 }
        Routes := [("r", sampleRoute "GET" "/r" 0
          (some { StatusCode := 204, Headers := [], Body := none }) [])] }
    cache := { entries := [], maxEntries := 0 } }

/-- A client without caching whose route `r` has no explicit response and whose fallback
tables, the route's and the global one, hold an entry under the given `key`. -/
def fallbackClient (key : String) : Client String :=
  { config :=
      { GlobalDefaults := [("2xx", { StatusCode := 200, Headers := [], Body := some "global" })]
        GlobalCache := { Enabled := false, TTL := 300, MaxEntries := 0 }
        Routes := [("r", sampleRoute "GET" "/r" 0 none
          [(key, { StatusCode := 201, Headers := [], Body := some "route" })])] }
    cache := { entries := [], maxEntries := 0 } }

/-- A full cache of capacity 2 holding `a` (created at 1) and `b` (created at 2). -/
def fullCache : Cache String :=
  { entries := [("a", sampleEntry 1 100), ("b", sampleEntry 2 100)], maxEntries := 2 }

/-- A client whose cache holds one entry for each of the routes `a`, `a_b` and `b`, under the
keys `getCacheKey` gives them for the method `GET` and the path `/x`. -/
def threeRouteClient : Client String :=
  { config :=
      { GlobalDefaults := []
        GlobalCache := { Enabled := true, TTL := 300, MaxEntries := 0 }
        Routes :=
          [("a", sampleRoute "GET" "/x" 0 none []),
           ("a_b", sampleRoute "GET" "/x" 0 none []),
           ("b", sampleRoute "GET" "/x" 0 none [])] }
    cache :=
      { entries :=
          [("a_GET_/x", sampleEntry 1 100), ("a_b_GET_/x", sampleEntry 2 100),
           ("b_GET_/x", sampleEntry 3 100)]
        maxEntries := 0 } }

/-- A client whose global cache policy is enabled with the given TTL (in seconds) and whose
route `r` declares an explicit response with status 200. -/
def ttlClient (ttl : Int) : Client String :=
  { config :=
      { GlobalDefaults := []
        GlobalCache := { Enabled := true, TTL := ttl, MaxEntries := 0 }
        Routes := [("r", sampleRoute "GET" "/r" 0
          (some { StatusCode := 200, Headers := [], Body := some "r" }) [])] }
    cache := { entries := [], maxEntries := 0 } }

/-- A client with caching enabled and the two `GET` routes `a_GET` (path `/x`, status 201) and
`a` (path `GET_/x`, status 200). -/
def collidingClient : Client String :=
  { config :=
      { GlobalDefaults := []
        GlobalCache := { Enabled := true, TTL := 300, MaxEntries := 0 }
        Routes :=
          [("a_GET", sampleRoute "GET" "/x" 0
              (some { StatusCode := 201, Headers := [], Body := some "first" }) []),
           ("a", sampleRoute "GET" "GET_/x" 0
              (some { StatusCode := 200, Headers := [], Body := some "second" }) [])] }
    cache := { entries := [], maxEntries := 0 } }

/-! ## Lemmas on Go maps -/

theorem mapGet_eq_none_iff {α : Type} (m : List (String × α)) (k : String) :
    mapGet m k = none ↔ k ∉ m.map Prod.fst := by
  induction m with
  | nil => simp [mapGet]
  | cons p rest ih =>
    obtain ⟨k', v⟩ := p
    by_cases h : k' = k
    · simp [mapGet, h]
    · have h' : ¬ k = k' := fun e => h e.symm
      simp [mapGet, h, h', ih]

theorem mapGet_mem {α : Type} (m : List (String × α)) (k : String) (v : α)
    (h : mapGet m k = some v) : (k, v) ∈ m := by
  induction m with
  | nil => simp [mapGet] at h
  | cons p rest ih =>
    obtain ⟨k', v'⟩ := p
    by_cases hk : k' = k
    · simp [mapGet, hk] at h
      simp [hk, h]
    · simp [mapGet, hk] at h
      exact List.mem_cons_of_mem _ (ih h)

theorem mapGet_of_mem {α : Type} (m : List (String × α)) (k : String) (v : α)
    (hn : KeysNodup m) (h : (k, v) ∈ m) : mapGet m k = some v := by
  induction m with
  | nil => simp at h
  | cons p rest ih =>
    obtain ⟨k', v'⟩ := p
    unfold KeysNodup at hn
    simp only [List.map_cons, List.nodup_cons] at hn
    rcases List.mem_cons.1 h with h | h
    · cases h
      simp [mapGet]
    · have hk : k' ≠ k := by
        intro e
        apply hn.1
        rw [e]
        exact List.mem_map_of_mem Prod.fst h
      simp [mapGet, hk, ih hn.2 h]

theorem mapGet_perm {α : Type} (m m' : List (String × α)) (k : String)
    (hn : KeysNodup m) (hp : m'.Perm m) : mapGet m' k = mapGet m k := by
  have hn' : KeysNodup m' := by
    unfold KeysNodup at *
    exact ((hp.map Prod.fst).nodup_iff).2 hn
  cases h : mapGet m k with
  | none =>
    rw [mapGet_eq_none_iff] at h ⊢
    intro hm
    exact h ((hp.map Prod.fst).subset hm)
  | some v =>
    exact mapGet_of_mem m' k v hn' (hp.symm.subset (mapGet_mem m k v h))

theorem mapGet_mapDelete_self {α : Type} (m : List (String × α)) (k : String) :
    mapGet (mapDelete m k) k = none := by
  rw [mapGet_eq_none_iff]
  simp [mapDelete, List.mem_filter]

theorem mapDelete_cons_self {α : Type} (rest : List (String × α)) (k : String) (v : α) :
    mapDelete ((k, v) :: rest) k = mapDelete rest k := by
  simp [mapDelete, List.filter_cons]

theorem mapDelete_cons_ne {α : Type} (rest : List (String × α)) (k0 k : String) (v : α)
    (h : k0 ≠ k) : mapDelete ((k0, v) :: rest) k = (k0, v) :: mapDelete rest k := by
  simp [mapDelete, List.filter_cons, h]

theorem mapGet_mapDelete_ne {α : Type} (m : List (String × α)) (k k' : String) (h : k' ≠ k) :
    mapGet (mapDelete m k) k' = mapGet m k' := by
  induction m with
  | nil => simp [mapDelete, mapGet]
  | cons p rest ih =>
    obtain ⟨k0, v⟩ := p
    by_cases h0 : k0 = k
    · subst h0
      have h1 : ¬ k0 = k' := fun e => h e.symm
      rw [mapDelete_cons_self, ih]
      simp [mapGet, h1]
    · rw [mapDelete_cons_ne rest k0 k v h0]
      by_cases h1 : k0 = k'
      · simp [mapGet, h1]
      · simp [mapGet, h1, ih]

theorem mapGet_append {α : Type} (a b : List (String × α)) (k : String) :
    mapGet (a ++ b) k = (mapGet a k).orElse (fun _ => mapGet b k) := by
  induction a with
  | nil => simp [mapGet]
  | cons p rest ih =>
    obtain ⟨k0, v⟩ := p
    by_cases h : k0 = k
    · simp [mapGet, h]
    · simp [mapGet, h, ih]

theorem mapGet_mapSet_self {α : Type} (m : List (String × α)) (k : String) (v : α) :
    mapGet (mapSet m k v) k = some v := by
  simp [mapSet, mapGet_append, mapGet_mapDelete_self, mapGet]

theorem mapGet_mapSet_ne {α : Type} (m : List (String × α)) (k k' : String) (v : α)
    (h : k' ≠ k) : mapGet (mapSet m k v) k' = mapGet m k' := by
  have h' : ¬ k = k' := fun e => h e.symm
  simp [mapSet, mapGet_append, mapGet_mapDelete_ne m k k' h, mapGet, h']

theorem keysNodup_mapDelete {α : Type} (m : List (String × α)) (k : String)
    (hn : KeysNodup m) : KeysNodup (mapDelete m k) := by
  unfold KeysNodup mapDelete at *
  exact (List.filter_sublist m).map Prod.fst |>.nodup hn

theorem keysNodup_mapSet {α : Type} (m : List (String × α)) (k : String) (v : α)
    (hn : KeysNodup m) : KeysNodup (mapSet m k v) := by
  have hd := keysNodup_mapDelete m k hn
  unfold KeysNodup mapSet at *
  rw [List.map_append, List.nodup_append]
  refine ⟨hd, by simp, ?_⟩
  intro a ha hb
  simp at hb
  subst hb
  simp [mapDelete, List.mem_filter] at ha

theorem length_mapDelete_le {α : Type} (m : List (String × α)) (k : String) :
    (mapDelete m k).length ≤ m.length :=
  List.length_filter_le _ _

theorem length_mapDelete_lt {α : Type} (m : List (String × α)) (k : String)
    (h : k ∈ m.map Prod.fst) : (mapDelete m k).length < m.length := by
  induction m with
  | nil => simp at h
  | cons p rest ih =>
    obtain ⟨k0, v⟩ := p
    by_cases h0 : k0 = k
    · have := length_mapDelete_le rest k
      simp [mapDelete, List.filter_cons, h0] at this ⊢
      omega
    · have hr : k ∈ rest.map Prod.fst := by
        simp at h
        rcases h with h | h
        · exact absurd h.symm h0
        · simpa using h
      have := ih hr
      simp [mapDelete, List.filter_cons, h0] at this ⊢
      omega

theorem length_mapDelete_of_nodup {α : Type} (m : List (String × α)) (k : String)
    (hn : KeysNodup m) (h : k ∈ m.map Prod.fst) : (mapDelete m k).length + 1 = m.length := by
  induction m with
  | nil => simp at h
  | cons p rest ih =>
    obtain ⟨k0, v⟩ := p
    unfold KeysNodup at hn
    simp only [List.map_cons, List.nodup_cons] at hn
    by_cases h0 : k0 = k
    · subst h0
      have hfix : mapDelete rest k0 = rest := by
        unfold mapDelete
        rw [List.filter_eq_self]
        intro a ha
        simp only [decide_eq_true_eq]
        intro e
        exact hn.1 (e ▸ List.mem_map_of_mem Prod.fst ha)
      have : mapDelete ((k0, v) :: rest) k0 = mapDelete rest k0 := by
        simp [mapDelete, List.filter_cons]
      rw [this, hfix]
      simp
    · have hr : k ∈ rest.map Prod.fst := by
        simp at h
        rcases h with h | h
        · exact absurd h.symm h0
        · simpa using h
      have := ih hn.2 hr
      simp [mapDelete, List.filter_cons, h0] at this ⊢
      omega

theorem length_mapSet_le {α : Type} (m : List (String × α)) (k : String) (v : α) :
    (mapSet m k v).length ≤ m.length + 1 := by
  have := length_mapDelete_le m k
  simp [mapSet]
  omega

/-! ## Lemmas on the cache loops -/

theorem cleanLoop_sublist (now : Int) (scan entries : List (String × CacheEntry β)) :
    (cleanLoop now scan entries).Sublist entries := by
  induction scan generalizing entries with
  | nil => simp [cleanLoop]
  | cons p rest ih =>
    obtain ⟨key, entry⟩ := p
    by_cases hexp : now > entry.ExpiresAt
    · simp only [cleanLoop, hexp, if_true]
      exact (ih _).trans (List.filter_sublist _)
    · simp only [cleanLoop, hexp, if_false]
      exact ih _

theorem mapGet_cleanLoop_expired (now : Int) (scan entries : List (String × CacheEntry β))
    (k : String) (h : ∃ e, (k, e) ∈ scan ∧ now > e.ExpiresAt) :
    mapGet (cleanLoop now scan entries) k = none := by
  rw [mapGet_eq_none_iff]
  induction scan generalizing entries with
  | nil => simp at h
  | cons p rest ih =>
    obtain ⟨key, entry⟩ := p
    obtain ⟨e, he, hlt⟩ := h
    have hsub : ∀ es : List (String × CacheEntry β), k ∉ es.map Prod.fst →
        k ∉ (cleanLoop now rest es).map Prod.fst := fun es hes hm =>
      hes (((cleanLoop_sublist now rest es).map Prod.fst).subset hm)
    rcases List.mem_cons.1 he with h | h
    · cases h
      simp only [cleanLoop, hlt, if_true]
      apply hsub
      rw [← mapGet_eq_none_iff]
      exact mapGet_mapDelete_self _ _
    · by_cases hexp : now > entry.ExpiresAt
      · simp only [cleanLoop, hexp, if_true]
        exact ih _ ⟨e, h, hlt⟩
      · simp only [cleanLoop, hexp, if_false]
        exact ih _ ⟨e, h, hlt⟩

theorem mapGet_cleanLoop_kept (now : Int) (scan entries : List (String × CacheEntry β))
    (k : String) (h : ∀ e, (k, e) ∈ scan → ¬ now > e.ExpiresAt) :
    mapGet (cleanLoop now scan entries) k = mapGet entries k := by
  induction scan generalizing entries with
  | nil => simp [cleanLoop]
  | cons p rest ih =>
    obtain ⟨key, entry⟩ := p
    have hrest : ∀ e, (k, e) ∈ rest → ¬ now > e.ExpiresAt := fun e he =>
      h e (List.mem_cons_of_mem _ he)
    by_cases hexp : now > entry.ExpiresAt
    · simp only [cleanLoop, hexp, if_true]
      rw [ih _ hrest]
      have hk : k ≠ key := by
        intro e
        subst e
        exact h entry (List.mem_cons_self _ _) hexp
      exact mapGet_mapDelete_ne _ _ _ hk
    · simp only [cleanLoop, hexp, if_false]
      exact ih _ hrest

/-! ## Theorems on the cache -/

/-- C1: a `set(k, v, ttl)` at time `t0` followed by a `get(k)` at a time `t` with
`t0 ≤ t < t0 + ttl` returns `(v, true)`, for every cache state, every `maxEntries` and every
eviction the `set` performs. -/
theorem get_after_set (c : Cache β) (scan : List (String × CacheEntry β)) (k : String)
    (v : Option (Response β)) (ttl : Int) (t0 t : Int) (_h0 : t0 ≤ t)
    (h1 : t < t0 + ttl) : (c.set scan k v ttl t0).get k t = (v, true) := by
  have hlt : ¬ t > t0 + ttl := by omega
  simp [Cache.get, Cache.set, mapGet_mapSet_self, hlt]

/-- C2, as amended: `get(k)` at time `now` returns `found = false` exactly when `k` is absent
or the entry's `expiresAt` is strictly before `now`; an entry whose `expiresAt` equals `now`
is still found. -/
theorem get_not_found_iff (c : Cache β) (k : String) (now : Int) :
    ((c.get k now).2 = false ↔
      (mapGet c.entries k = none ∨ ∃ e, mapGet c.entries k = some e ∧ e.ExpiresAt < now)) ∧
    (∀ e, mapGet c.entries k = some e → e.ExpiresAt = now → c.get k now = (e.Response, true)) := by
  constructor
  · cases h : mapGet c.entries k with
    | none => simp [Cache.get, h]
    | some e =>
      by_cases hlt : now > e.ExpiresAt
      · simp [Cache.get, h, hlt]
      · simp [Cache.get, h, hlt]
  · intro e he heq
    have hlt : ¬ now > e.ExpiresAt := by omega
    simp [Cache.get, he, hlt]

/-- C5, as amended: `cleanExpiredEntries` at time `now` removes exactly the entries whose
`expiresAt` is strictly before `now` and leaves every other key mapped to the entry it had,
whatever the order of the scan; an entry whose `expiresAt` equals `now` stays. -/
theorem cleanExpiredEntries_spec (c : Cache β) (scan : List (String × CacheEntry β))
    (now : Int) (hn : KeysNodup c.entries) (hs : scan.Perm c.entries) :
    KeysNodup (c.cleanExpiredEntries scan now).entries ∧
    (c.cleanExpiredEntries scan now).maxEntries = c.maxEntries ∧
    ∀ k, mapGet (c.cleanExpiredEntries scan now).entries k =
      match mapGet c.entries k with
      | none => none
      | some e => if e.ExpiresAt < now then none else some e := by
  refine ⟨?_, rfl, ?_⟩
  · unfold KeysNodup at *
    exact ((cleanLoop_sublist now scan c.entries).map Prod.fst).nodup hn
  · intro k
    simp only [Cache.cleanExpiredEntries]
    cases h : mapGet c.entries k with
    | none =>
      rw [mapGet_cleanLoop_kept, h]
      intro e he
      have h' := mapGet_of_mem _ _ _ hn (hs.subset he)
      rw [h] at h'
      cases h'
    | some e =>
      have hmem : (k, e) ∈ scan := hs.symm.subset (mapGet_mem _ _ _ h)
      by_cases hlt : e.ExpiresAt < now
      · rw [mapGet_cleanLoop_expired now scan c.entries k ⟨e, hmem, hlt⟩]
        simp [hlt]
      · rw [mapGet_cleanLoop_kept, h]
        · simp [hlt]
        · intro e' he' hlt'
          have h' := mapGet_of_mem _ _ _ hn (hs.subset he')
          rw [h] at h'
          cases h'
          exact hlt hlt'

/-- C1 at a concrete input: a full cache of capacity 2, the `set` evicting an entry first. -/
theorem get_after_set_witness :
    (3 : Int) ≤ 4 ∧ (4 : Int) < 3 + 5 ∧
    (emptyKeyCache.set emptyKeyCache.entries "a" (some sampleResponse) 5 3).get "a" 4 =
      (some sampleResponse, true) :=
  ⟨by decide, by decide,
    get_after_set emptyKeyCache emptyKeyCache.entries "a" (some sampleResponse) 5 3 4
      (by decide) (by decide)⟩

/-- C2 as stated fails: an entry whose `expiresAt` equals the current time is found. -/
theorem get_boundary_counterexample :
    ¬ ((boundaryCache.get "k" 5).2 = false ↔
        (mapGet boundaryCache.entries "k" = none ∨
          ∃ e, mapGet boundaryCache.entries "k" = some e ∧ e.ExpiresAt ≤ 5)) := by
  intro h
  have hfound : (boundaryCache.get "k" 5).2 = false :=
    h.2 (Or.inr ⟨sampleEntry 0 5, by decide, by decide⟩)
  revert hfound
  decide

/-- C5 as stated fails: the sweep at time 5 keeps an entry whose `expiresAt` is 5. -/
theorem clean_boundary_counterexample :
    ¬ (∀ k, mapGet (boundaryCache.cleanExpiredEntries boundaryCache.entries 5).entries k =
        match mapGet boundaryCache.entries k with
        | none => none
        | some e => if e.ExpiresAt ≤ 5 then none else some e) := by
  intro h
  have hk := h "k"
  revert hk
  decide

/-- C5 (amended) at a concrete input: of two entries scanned in reverse order, the sweep at
time 5 drops the one that expired at 4 and keeps the one that expires at 5. -/
theorem cleanExpiredEntries_spec_witness :
    mapGet (Cache.cleanExpiredEntries
      { entries := [("k", sampleEntry 0 5), ("old", sampleEntry 0 4)], maxEntries := 0 }
      [("old", sampleEntry 0 4), ("k", sampleEntry 0 5)] 5).entries "old" = none :=
  ((cleanExpiredEntries_spec
      { entries := [("k", sampleEntry 0 5), ("old", sampleEntry 0 4)], maxEntries := 0 }
      [("old", sampleEntry 0 4), ("k", sampleEntry 0 5)] 5 (by decide) (by decide)).2.2
    "old").trans (by decide)

/-! ## Capacity -/

theorem oldestLoop_fst (scan : List (String × CacheEntry β)) (k : String) (t : Int) :
    (oldestLoop scan k t).1 = k ∨ (oldestLoop scan k t).1 ∈ scan.map Prod.fst := by
  induction scan generalizing k t with
  | nil => simp [oldestLoop]
  | cons p rest ih =>
    obtain ⟨k0, v⟩ := p
    by_cases hc : k = "" ∨ v.CreatedAt < t
    · simp only [oldestLoop, hc, if_true]
      rcases ih k0 v.CreatedAt with h | h
      · right
        simp [h]
      · right
        simp only [List.map_cons, List.mem_cons]
        exact Or.inr h
    · simp only [oldestLoop, hc, if_false]
      rcases ih k t with h | h
      · exact Or.inl h
      · right
        simp only [List.map_cons, List.mem_cons]
        exact Or.inr h

theorem evictionVictim_mem (scan : List (String × CacheEntry β)) (h : scan ≠ []) :
    evictionVictim scan ∈ scan.map Prod.fst := by
  cases scan with
  | nil => exact absurd rfl h
  | cons p rest =>
    obtain ⟨k0, v⟩ := p
    simp only [evictionVictim, oldestLoop, true_or, if_true]
    rcases oldestLoop_fst rest k0 v.CreatedAt with h | h
    · simp [h]
    · simp only [List.map_cons, List.mem_cons]
      exact Or.inr h

theorem oldestLoop_oldest (scan : List (String × CacheEntry β)) (k : String) (t : Int)
    (hk : k ≠ "") (hscan : "" ∉ scan.map Prod.fst) :
    (oldestLoop scan k t).2 ≤ t ∧
    (∀ p ∈ scan, (oldestLoop scan k t).2 ≤ p.2.CreatedAt) ∧
    (oldestLoop scan k t = (k, t) ∨
      ∃ e, ((oldestLoop scan k t).1, e) ∈ scan ∧ e.CreatedAt = (oldestLoop scan k t).2) := by
  induction scan generalizing k t with
  | nil => simp [oldestLoop]
  | cons p rest ih =>
    obtain ⟨k0, v⟩ := p
    have hk0 : k0 ≠ "" := by
      intro e
      apply hscan
      simp [e]
    have hrest : "" ∉ rest.map Prod.fst := by
      intro hm
      apply hscan
      simp only [List.map_cons, List.mem_cons]
      exact Or.inr hm
    by_cases hlt : v.CreatedAt < t
    · have hc : k = "" ∨ v.CreatedAt < t := Or.inr hlt
      obtain ⟨h1, h2, h3⟩ := ih k0 v.CreatedAt hk0 hrest
      simp only [oldestLoop, hc, if_true]
      refine ⟨by omega, ?_, ?_⟩
      · intro p hp
        rcases List.mem_cons.1 hp with h | h
        · subst h
          exact h1
        · exact h2 p h
      · right
        rcases h3 with h | ⟨e, he, hce⟩
        · exact ⟨v, by rw [h]; exact List.mem_cons_self _ _, by rw [h]⟩
        · exact ⟨e, List.mem_cons_of_mem _ he, hce⟩
    · have hc : ¬ (k = "" ∨ v.CreatedAt < t) := by
        rintro (h | h)
        · exact hk h
        · exact hlt h
      obtain ⟨h1, h2, h3⟩ := ih k t hk hrest
      simp only [oldestLoop, hc, if_false]
      refine ⟨h1, ?_, ?_⟩
      · intro p hp
        rcases List.mem_cons.1 hp with h | h
        · subst h
          show (oldestLoop rest k t).2 ≤ v.CreatedAt
          omega
        · exact h2 p h
      · rcases h3 with h | ⟨e, he, hce⟩
        · exact Or.inl h
        · exact Or.inr ⟨e, List.mem_cons_of_mem _ he, hce⟩

/-- When no entry is stored under the empty key, the victim of a non-empty scan is an entry of
the scan whose `CreatedAt` is the smallest of all. -/
theorem evictionVictim_oldest (scan : List (String × CacheEntry β)) (hne : scan ≠ [])
    (hscan : "" ∉ scan.map Prod.fst) :
    ∃ e, (evictionVictim scan, e) ∈ scan ∧ ∀ p ∈ scan, e.CreatedAt ≤ p.2.CreatedAt := by
  cases scan with
  | nil => exact absurd rfl hne
  | cons p rest =>
    obtain ⟨k0, v⟩ := p
    have hk0 : k0 ≠ "" := by
      intro e
      apply hscan
      simp [e]
    have hrest : "" ∉ rest.map Prod.fst := by
      intro hm
      apply hscan
      simp only [List.map_cons, List.mem_cons]
      exact Or.inr hm
    obtain ⟨h1, h2, h3⟩ := oldestLoop_oldest rest k0 v.CreatedAt hk0 hrest
    simp only [evictionVictim, oldestLoop, true_or, if_true]
    rcases h3 with h | ⟨e, he, hce⟩
    · refine ⟨v, by rw [h]; exact List.mem_cons_self _ _, ?_⟩
      intro p hp
      rcases List.mem_cons.1 hp with hp | hp
      · subst hp
        exact le_refl _
      · have := h2 p hp
        rw [h] at this
        exact this
    · refine ⟨e, List.mem_cons_of_mem _ he, ?_⟩
      intro p hp
      rw [hce]
      rcases List.mem_cons.1 hp with hp | hp
      · subst hp
        exact h1
      · exact h2 p hp

theorem invalidateLoop_sublist (routeName : String) (scan entries : List (String × CacheEntry β)) :
    (invalidateLoop routeName scan entries).Sublist entries := by
  induction scan generalizing entries with
  | nil => simp [invalidateLoop]
  | cons p rest ih =>
    obtain ⟨key, entry⟩ := p
    by_cases hp : HasPrefix key (routeName ++ "_") = true
    · simp only [invalidateLoop, hp, if_true]
      exact (ih _).trans (List.filter_sublist _)
    · simp only [invalidateLoop, hp]
      exact ih _

theorem set_maxEntries (c : Cache β) (scan : List (String × CacheEntry β)) (key : String)
    (response : Option (Response β)) (ttl now : Int) :
    (c.set scan key response ttl now).maxEntries = c.maxEntries := rfl

theorem set_length_le (c : Cache β) (scan : List (String × CacheEntry β)) (key : String)
    (response : Option (Response β)) (ttl now : Int) (hs : scan.Perm c.entries)
    (hm : 0 < c.maxEntries) (hlen : (c.entries.length : Int) ≤ c.maxEntries) :
    ((c.set scan key response ttl now).entries.length : Int) ≤ c.maxEntries := by
  by_cases hfull : c.maxEntries > 0 ∧ (c.entries.length : Int) ≥ c.maxEntries
  · have hne : scan ≠ [] := by
      intro e
      have hl := hs.length_eq
      rw [e] at hl
      simp at hl
      omega
    have hv : evictionVictim scan ∈ c.entries.map Prod.fst :=
      (hs.map Prod.fst).subset (evictionVictim_mem scan hne)
    have h1 := length_mapDelete_lt c.entries _ hv
    have h2 := length_mapSet_le (mapDelete c.entries (evictionVictim scan)) key
      { Response := response, CreatedAt := now, ExpiresAt := now + ttl }
    simp only [Cache.set, hfull, and_self, if_true]
    omega
  · have h2 := length_mapSet_le c.entries key
      { Response := response, CreatedAt := now, ExpiresAt := now + ttl }
    simp only [Cache.set, hfull, if_false]
    omega

theorem cacheStep_preserves (c c' : Cache β) (hstep : CacheStep c c') (hm : 0 < c.maxEntries)
    (hlen : (c.entries.length : Int) ≤ c.maxEntries) :
    c'.maxEntries = c.maxEntries ∧ (c'.entries.length : Int) ≤ c.maxEntries := by
  cases hstep with
  | set _ scan key response ttl now hs =>
    exact ⟨rfl, set_length_le c scan key response ttl now hs hm hlen⟩
  | clean _ scan now hs =>
    refine ⟨rfl, ?_⟩
    have := (cleanLoop_sublist now scan c.entries).length_le
    simp only [Cache.cleanExpiredEntries]
    omega
  | invalidate cl =>
    refine ⟨rfl, ?_⟩
    simp only [InvalidateCache, List.length_nil]
    omega
  | invalidateRoute cl scan routeName hs =>
    refine ⟨rfl, ?_⟩
    have := (invalidateLoop_sublist routeName scan cl.cache.entries).length_le
    simp only [InvalidateCacheForRoute]
    omega

/-- C3: with `maxEntries = m > 0`, a cache holding at most `m` entries still holds at most `m`
entries after `set`, `cleanExpiredEntries`, `InvalidateCache` or `InvalidateCacheForRoute`,
for every key, value, ttl, time and scan order; hence every cache reachable from the empty
cache holds at most `m` entries. -/
theorem capacity_invariant (m : Int) (hm : 0 < m) :
    (∀ c c' : Cache β, c.maxEntries = m → (c.entries.length : Int) ≤ m → CacheStep c c' →
      c'.maxEntries = m ∧ (c'.entries.length : Int) ≤ m) ∧
    (∀ c : Cache β, Reachable m c → c.maxEntries = m ∧ (c.entries.length : Int) ≤ m) := by
  have hstep : ∀ c c' : Cache β, c.maxEntries = m → (c.entries.length : Int) ≤ m →
      CacheStep c c' → c'.maxEntries = m ∧ (c'.entries.length : Int) ≤ m := by
    intro c c' hmax hlen hs
    subst hmax
    have h := cacheStep_preserves c c' hs hm hlen
    exact ⟨h.1, h.2⟩
  refine ⟨hstep, ?_⟩
  intro c hr
  induction hr with
  | empty => exact ⟨rfl, by simp; omega⟩
  | step c c' _ hs ih => exact hstep c c' ih.1 ih.2 hs

/-- C3 at a concrete input: a `set` on a full cache of capacity 2 leaves 2 entries. -/
theorem capacity_invariant_witness :
    ((emptyKeyCache.set emptyKeyCache.entries "b" (some sampleResponse) 5 3).entries.length
      : Int) ≤ 2 :=
  ((capacity_invariant 2 (by decide)).1 emptyKeyCache _ rfl (by decide)
    (CacheStep.set emptyKeyCache emptyKeyCache.entries "b" (some sampleResponse) 5 3
      (List.Perm.refl _))).2

/-- C4 at the failing input: on the full cache `emptyKeyCache`, scanned with the empty key
first, `set("b")` evicts `"a"` (created at 2) and keeps the entry under `""` (created at 1),
which is the older one; and inserting `""`, `"a"`, `"b"` at the times 1, 2, 3 into the empty
cache of capacity 2 leaves the first-inserted key `""` present. -/
theorem set_keeps_oldest_under_empty_key :
    (mapGet (emptyKeyCache.set emptyKeyCache.entries "b" (some sampleResponse) 5 3).entries "a"
        = none ∧
      mapGet (emptyKeyCache.set emptyKeyCache.entries "b" (some sampleResponse) 5 3).entries ""
        = some (sampleEntry 1 100) ∧
      (sampleEntry 1 100).CreatedAt < (sampleEntry 2 100).CreatedAt) ∧
    (((emptyCache2.set [] "" (some sampleResponse) 99 1).set
          [("", sampleEntry 1 100)] "a" (some sampleResponse) 98 2).set
          [("", sampleEntry 1 100), ("a", sampleEntry 2 100)] "b" (some sampleResponse) 97 3
      = { entries := [("", sampleEntry 1 100), ("b", sampleEntry 3 100)], maxEntries := 2 }) := by
  decide

/-! ## `ExecuteWithContext` -/

/-- C10: for a name that is not a key of the configured routes, `ExecuteWithContext` returns a
route-not-found error, no response, and leaves the cache as it was. -/
theorem execute_unknown_route (env : Env β) (c : Client β) (call : Call β) (routeName : String)
    (h : routeName ∉ c.config.Routes.map Prod.fst) :
    (ExecuteWithContext env c call routeName).resp = none ∧
    (ExecuteWithContext env c call routeName).err = some (.routeNotFound routeName) ∧
    (ExecuteWithContext env c call routeName).cache = c.cache := by
  have hnone : mapGet c.config.Routes routeName = none :=
    (mapGet_eq_none_iff _ _).2 h
  simp [ExecuteWithContext, hnone]

/-- C10 at a concrete input: the route `non-existent` of the client tests. -/
theorem execute_unknown_route_witness :
    (ExecuteWithContext sampleEnv testClientAfterCancel (sampleCall 20 [] [] false)
        "non-existent").err = some (.routeNotFound "non-existent") ∧
    (ExecuteWithContext sampleEnv testClientAfterCancel (sampleCall 20 [] [] false)
        "non-existent").cache = testClientAfterCancel.cache :=
  (execute_unknown_route sampleEnv testClientAfterCancel (sampleCall 20 [] [] false)
    "non-existent" (by decide)).2

theorem execute_miss_error (env : Env β) (c : Client β) (call : Call β) (routeName : String)
    (route : RouteConfig β) (e : String)
    (hroute : mapGet c.config.Routes routeName = some route)
    (hmiss : (lookupCached env c call routeName route).2 = false)
    (ha : assembleResponse env call (selectResponseConfig c.config route) = .error e) :
    ExecuteWithContext env c call routeName =
      { resp := none, err := some (.marshalFailed e), cache := c.cache } := by
  simp [ExecuteWithContext, hroute, hmiss, ha]

theorem execute_miss_cancelled (env : Env β) (c : Client β) (call : Call β)
    (routeName : String) (route : RouteConfig β) (response : Response β)
    (hroute : mapGet c.config.Routes routeName = some route)
    (hmiss : (lookupCached env c call routeName route).2 = false)
    (ha : assembleResponse env call (selectResponseConfig c.config route) = .ok response)
    (hdelay : route.Timeout > 0) (hcancel : call.ctxDoneFirst = true) :
    ExecuteWithContext env c call routeName =
      { resp := none, err := some .ctxErr
        cache := (writeBack env c call routeName route response).2 } := by
  simp [ExecuteWithContext, hroute, hmiss, ha, hdelay, hcancel]

theorem execute_miss_ok (env : Env β) (c : Client β) (call : Call β) (routeName : String)
    (route : RouteConfig β) (response : Response β)
    (hroute : mapGet c.config.Routes routeName = some route)
    (hmiss : (lookupCached env c call routeName route).2 = false)
    (ha : assembleResponse env call (selectResponseConfig c.config route) = .ok response)
    (hnc : route.Timeout > 0 → call.ctxDoneFirst = false) :
    ExecuteWithContext env c call routeName =
      { resp := some (writeBack env c call routeName route response).1, err := none
        cache := (writeBack env c call routeName route response).2 } := by
  by_cases ht : route.Timeout > 0
  · simp [ExecuteWithContext, hroute, hmiss, ha, ht, hnc ht]
  · simp [ExecuteWithContext, hroute, hmiss, ha, ht]

theorem execute_hit (env : Env β) (c : Client β) (call : Call β) (routeName : String)
    (route : RouteConfig β) (hroute : mapGet c.config.Routes routeName = some route)
    (hhit : (lookupCached env c call routeName route).2 = true) :
    ExecuteWithContext env c call routeName =
      { resp := (lookupCached env c call routeName route).1, err := none, cache := c.cache } := by
  simp [ExecuteWithContext, hroute, hhit]

theorem assembleResponse_cases (env : Env β) (call : Call β) (rc : ResponseConfig β) :
    (∃ b e, rc.Body = some b ∧ env.marshal b = .error e ∧
      assembleResponse env call rc = .error e) ∨
    (∃ r, assembleResponse env call rc = .ok r ∧
      r.StatusCode = rc.StatusCode ∧ r.ParsedBody = rc.Body ∧
      (match rc.Body with
        | none => r.Body = ""
        | some b => jsonMarshal env (some b) = .ok r.Body) ∧
      r.Headers = buildHeaders env.canonicalKey call.headerScan [] ∧
      r.ContentType = headerGet env.canonicalKey r.Headers "Content-Type" ∧
      r.CachedAt = none) := by
  cases hb : rc.Body with
  | none =>
    right
    refine ⟨{ StatusCode := rc.StatusCode
              Headers := buildHeaders env.canonicalKey call.headerScan []
              Body := ""
              ParsedBody := none
              CachedAt := none
              ContentType :=
                headerGet env.canonicalKey (buildHeaders env.canonicalKey call.headerScan [])
                  "Content-Type" }, ?_, rfl, rfl, rfl, rfl, rfl, rfl⟩
    simp [assembleResponse, hb]
  | some b =>
    cases hm : env.marshal b with
    | error e =>
      left
      exact ⟨b, e, rfl, hm, by simp [assembleResponse, hb, jsonMarshal, hm]⟩
    | ok bytes =>
      right
      refine ⟨{ StatusCode := rc.StatusCode
                Headers := buildHeaders env.canonicalKey call.headerScan []
                Body := bytes
                ParsedBody := some b
                CachedAt := none
                ContentType :=
                  headerGet env.canonicalKey (buildHeaders env.canonicalKey call.headerScan [])
                    "Content-Type" }, ?_, rfl, rfl, ?_, rfl, rfl, rfl⟩
      · simp [assembleResponse, hb, jsonMarshal, hm]
      · simp [jsonMarshal, hm]

theorem writeBack_fields (env : Env β) (c : Client β) (call : Call β) (routeName : String)
    (route : RouteConfig β) (response : Response β) :
    (writeBack env c call routeName route response).1.StatusCode = response.StatusCode ∧
    (writeBack env c call routeName route response).1.Headers = response.Headers ∧
    (writeBack env c call routeName route response).1.Body = response.Body ∧
    (writeBack env c call routeName route response).1.ParsedBody = response.ParsedBody ∧
    (writeBack env c call routeName route response).1.ContentType = response.ContentType := by
  by_cases h : (effectiveCacheConfig c.config route).Enabled = true ∧ route.Method = "GET" ∧
      response.StatusCode ≥ 200 ∧ response.StatusCode < 300
  · simp [writeBack, h]
  · simp [writeBack, h]

/-- The outcome of a call that misses the cache and is not cancelled, in terms of the response
configuration it resolves: the marshalling error, or a response carrying the configuration's
status code, body and headers. -/
theorem execute_miss_fields (env : Env β) (c : Client β) (call : Call β) (routeName : String)
    (route : RouteConfig β) (hroute : mapGet c.config.Routes routeName = some route)
    (hmiss : (lookupCached env c call routeName route).2 = false)
    (hcancel : call.ctxDoneFirst = false) :
    (∃ b e, (selectResponseConfig c.config route).Body = some b ∧ env.marshal b = .error e ∧
      (ExecuteWithContext env c call routeName).resp = none ∧
      (ExecuteWithContext env c call routeName).err = some (.marshalFailed e)) ∨
    (∃ r, (ExecuteWithContext env c call routeName).resp = some r ∧
      (ExecuteWithContext env c call routeName).err = none ∧
      r.StatusCode = (selectResponseConfig c.config route).StatusCode ∧
      r.ParsedBody = (selectResponseConfig c.config route).Body ∧
      (match (selectResponseConfig c.config route).Body with
        | none => r.Body = ""
        | some b => jsonMarshal env (some b) = .ok r.Body) ∧
      r.Headers = buildHeaders env.canonicalKey call.headerScan [] ∧
      r.ContentType = headerGet env.canonicalKey r.Headers "Content-Type") := by
  rcases assembleResponse_cases env call (selectResponseConfig c.config route) with
    ⟨b, e, hb, hm, ha⟩ | ⟨r0, ha, hsc, hpb, hbody, hh, hct, _⟩
  · left
    rw [execute_miss_error env c call routeName route e hroute hmiss ha]
    exact ⟨b, e, hb, hm, rfl, rfl⟩
  · right
    rw [execute_miss_ok env c call routeName route r0 hroute hmiss ha (fun _ => hcancel)]
    obtain ⟨w1, w2, w3, w4, w5⟩ := writeBack_fields env c call routeName route r0
    refine ⟨_, rfl, rfl, w1.trans hsc, w4.trans hpb, ?_, w2.trans hh, ?_⟩
    · rw [w3]
      exact hbody
    · rw [w5, w2]
      exact hct

theorem selectResponseConfig_explicit (cfg : Config β) (route : RouteConfig β)
    (expected : ResponseConfig β) (h : route.ExpectedResp = some expected) :
    selectResponseConfig cfg route = expected := by
  simp [selectResponseConfig, h]

theorem selectResponseConfig_fallback (cfg : Config β) (route : RouteConfig β)
    (h : route.ExpectedResp = none) :
    selectResponseConfig cfg route =
      ((mapGet route.DefaultResps "200" <|> mapGet cfg.GlobalDefaults "200" <|>
        mapGet cfg.GlobalDefaults "2xx").getD ResponseConfig.zero) := by
  have hkey : sprintfD 200 = "200" := by decide
  simp only [selectResponseConfig, h, hkey]
  cases mapGet route.DefaultResps "200" with
  | some d => simp
  | none =>
    cases mapGet cfg.GlobalDefaults "200" with
    | some d => simp
    | none => simp

/-- C6 as stated fails: for an explicit response whose body is nil, the returned `Body` is
empty, not the JSON encoding `null` of that body. -/
theorem explicit_nil_body_counterexample :
    ¬ (∀ r, (ExecuteWithContext sampleEnv nilBodyClient (sampleCall 20 [] [] false) "r").resp
          = some r →
        jsonMarshal sampleEnv (none : Option String) = .ok r.Body) := by
  intro h
  have h1 := h { StatusCode := 204, Headers := [], Body := "", ParsedBody := none,
                 CachedAt := none, ContentType := "" } (by decide)
  simp [jsonMarshal] at h1

/-- C6, as amended: for a route with an explicit expected response, a call that misses the
cache and is not cancelled returns either the marshalling error of the explicit body, or a
response with the explicit response's status code, `ParsedBody` equal to its body, `Body`
equal to the JSON encoding of that body when the body is not nil and empty when it is nil, and
headers built from the scan of its headers alone, whatever the fallback tables hold. -/
theorem explicit_response_used (env : Env β) (c : Client β) (call : Call β)
    (routeName : String) (route : RouteConfig β) (expected : ResponseConfig β)
    (hroute : mapGet c.config.Routes routeName = some route)
    (hexp : route.ExpectedResp = some expected)
    (_hscan : call.headerScan.Perm expected.Headers)
    (hmiss : (lookupCached env c call routeName route).2 = false)
    (hcancel : call.ctxDoneFirst = false) :
    (∃ b e, expected.Body = some b ∧ env.marshal b = .error e ∧
      (ExecuteWithContext env c call routeName).resp = none ∧
      (ExecuteWithContext env c call routeName).err = some (.marshalFailed e)) ∨
    (∃ r, (ExecuteWithContext env c call routeName).resp = some r ∧
      (ExecuteWithContext env c call routeName).err = none ∧
      r.StatusCode = expected.StatusCode ∧
      r.ParsedBody = expected.Body ∧
      (match expected.Body with
        | none => r.Body = ""
        | some b => jsonMarshal env (some b) = .ok r.Body) ∧
      r.Headers = buildHeaders env.canonicalKey call.headerScan [] ∧
      r.ContentType = headerGet env.canonicalKey r.Headers "Content-Type") := by
  have h := execute_miss_fields env c call routeName route hroute hmiss hcancel
  rw [selectResponseConfig_explicit c.config route expected hexp] at h
  exact h

/-- C6 (amended) at a concrete input: the first call of `test-route` of the client tests. -/
theorem explicit_response_used_witness :
    ∃ r, (ExecuteWithContext sampleEnv testClient
        (sampleCall 10 [("Content-Type", "application/json")] [] false) "test-route").resp
          = some r ∧
      r.StatusCode = 200 ∧ r.ParsedBody = some "test response" ∧
      r.Body = "\"test response\"" ∧
      r.Headers = [("Content-Type", ["application/json"])] := by
  rcases explicit_response_used sampleEnv testClient
      (sampleCall 10 [("Content-Type", "application/json")] [] false) "test-route"
      (sampleRoute "GET" "/test" 0 (some testExpected) []) testExpected
      (by decide) rfl (List.Perm.refl _) (by decide) rfl with
    ⟨b, e, hb, he, _⟩ | ⟨r, hr, _, hsc, hpb, hbody, hh, _⟩
  · cases hb
    cases he
  · refine ⟨r, hr, hsc, hpb, ?_, ?_⟩
    · have hb : jsonMarshal sampleEnv (some "test response") = .ok r.Body := hbody
      simp only [jsonMarshal, sampleEnv, Except.ok.injEq] at hb
      rw [← hb]
      decide
    · rw [hh]
      decide

/-- C7 as stated fails: a route-level fallback entry under `2xx` is not consulted; the
response comes from the global `2xx` entry. -/
theorem route_2xx_fallback_counterexample :
    ¬ (∀ d, mapGet [("2xx", ({ StatusCode := 201, Headers := [], Body := some "route" }
            : ResponseConfig String))] "2xx" = some d →
        ∃ r, (ExecuteWithContext sampleEnv (fallbackClient "2xx") (sampleCall 20 [] [] false)
            "r").resp = some r ∧
          r.StatusCode = d.StatusCode ∧ r.ParsedBody = d.Body) := by
  intro h
  obtain ⟨r, hr, hsc, _⟩ := h _ rfl
  have hresp : (ExecuteWithContext sampleEnv (fallbackClient "2xx") (sampleCall 20 [] [] false)
      "r").resp =
      some { StatusCode := 200, Headers := [], Body := "\"global\""
             ParsedBody := some "global", CachedAt := none, ContentType := "" } := by decide
  rw [hresp] at hr
  cases hr
  revert hsc
  decide

/-- C7, as amended: for a route without an explicit expected response, the response
configuration is looked up under the key `200` in the route's own fallback table, then under
`200` in the global fallback table, then under `2xx` in the global table (the zero value when
all three are absent); whenever the route's own table has an entry under `200`, a call that
misses the cache and is not cancelled returns the marshalling error of that entry's body or a
response with that entry's status code and body. -/
theorem fallback_selection (env : Env β) (c : Client β) (call : Call β) (routeName : String)
    (route : RouteConfig β)
    (hroute : mapGet c.config.Routes routeName = some route)
    (hnone : route.ExpectedResp = none)
    (hmiss : (lookupCached env c call routeName route).2 = false)
    (hcancel : call.ctxDoneFirst = false) :
    selectResponseConfig c.config route =
      ((mapGet route.DefaultResps "200" <|> mapGet c.config.GlobalDefaults "200" <|>
        mapGet c.config.GlobalDefaults "2xx").getD ResponseConfig.zero) ∧
    ((∃ b e, (selectResponseConfig c.config route).Body = some b ∧ env.marshal b = .error e ∧
        (ExecuteWithContext env c call routeName).resp = none ∧
        (ExecuteWithContext env c call routeName).err = some (.marshalFailed e)) ∨
      (∃ r, (ExecuteWithContext env c call routeName).resp = some r ∧
        (ExecuteWithContext env c call routeName).err = none ∧
        r.StatusCode = (selectResponseConfig c.config route).StatusCode ∧
        r.ParsedBody = (selectResponseConfig c.config route).Body)) ∧
    (∀ d, mapGet route.DefaultResps "200" = some d →
      selectResponseConfig c.config route = d) := by
  have hsel := selectResponseConfig_fallback c.config route hnone
  refine ⟨hsel, ?_, ?_⟩
  · rcases execute_miss_fields env c call routeName route hroute hmiss hcancel with
      ⟨b, e, hb, he, h1, h2⟩ | ⟨r, hr, herr, hsc, hpb, _⟩
    · exact Or.inl ⟨b, e, hb, he, h1, h2⟩
    · exact Or.inr ⟨r, hr, herr, hsc, hpb⟩
  · intro d hd
    rw [hsel, hd]
    simp

/-- C7 (amended) at a concrete input: a route whose own fallback table has an entry under
`200` gets that entry, not the global one. -/
theorem fallback_selection_witness :
    selectResponseConfig (fallbackClient "200").config
        (sampleRoute "GET" "/r" 0 none
          [("200", { StatusCode := 201, Headers := [], Body := some "route" })]) =
      { StatusCode := 201, Headers := [], Body := some "route" } :=
  (fallback_selection sampleEnv (fallbackClient "200") (sampleCall 20 [] [] false) "r"
    (sampleRoute "GET" "/r" 0 none
      [("200", { StatusCode := 201, Headers := [], Body := some "route" })])
    (by decide) rfl (by decide) rfl).2.2 _ (by decide)

theorem writeBack_store (env : Env β) (c : Client β) (call : Call β) (routeName : String)
    (route : RouteConfig β) (response : Response β)
    (hen : (effectiveCacheConfig c.config route).Enabled = true)
    (hget : route.Method = "GET")
    (hlo : response.StatusCode ≥ 200) (hhi : response.StatusCode < 300) :
    writeBack env c call routeName route response =
      ({ response with CachedAt := some call.tStamp },
        c.cache.set call.evictScan (getCacheKey env routeName route)
          (some { response with CachedAt := some call.tStamp })
          (if wrap64 ((effectiveCacheConfig c.config route).TTL * Second) = 0 then 5 * Minute
            else wrap64 ((effectiveCacheConfig c.config route).TTL * Second))
          call.tSet) := by
  simp [writeBack, hen, hget, hlo, hhi]

theorem writeBack_skip (env : Env β) (c : Client β) (call : Call β) (routeName : String)
    (route : RouteConfig β) (response : Response β)
    (h : ¬ ((effectiveCacheConfig c.config route).Enabled = true ∧ route.Method = "GET" ∧
      response.StatusCode ≥ 200 ∧ response.StatusCode < 300)) :
    writeBack env c call routeName route response = (response, c.cache) := by
  simp only [writeBack, h, if_false]

theorem execute_hit_of_entry (env : Env β) (c : Client β) (call : Call β)
    (routeName : String) (route : RouteConfig β) (e : CacheEntry β)
    (hroute : mapGet c.config.Routes routeName = some route)
    (hget : route.Method = "GET")
    (hen : (effectiveCacheConfig c.config route).Enabled = true)
    (hentry : mapGet c.cache.entries (getCacheKey env routeName route) = some e)
    (hfresh : ¬ call.tGet > e.ExpiresAt) :
    ExecuteWithContext env c call routeName =
      { resp := e.Response, err := none, cache := c.cache } := by
  have hen' : (effectiveCacheConfig c.config route).Enabled = true ∧ route.Method = "GET" :=
    ⟨hen, hget⟩
  have hlook : lookupCached env c call routeName route = (e.Response, true) := by
    simp only [lookupCached, if_pos hen', Cache.get, hentry, hfresh, if_false]
  have h := execute_hit env c call routeName route hroute (by rw [hlook])
  rw [hlook] at h
  exact h

/-- C8: for a `GET` route whose governing cache policy is enabled with `TTL ≥ 0` and whose
resolved status code is in `[200, 300)`, when a first `Execute` misses the cache and succeeds,
a second `Execute` of the same route at a time before the entry expires, run on the cache the
first call left, returns without error the response of the first call, whose `CachedAt` is
set, and leaves the cache unchanged. -/
theorem cache_hit_returns_stored (env : Env β) (c : Client β) (call1 call2 : Call β)
    (routeName : String) (route : RouteConfig β)
    (hroute : mapGet c.config.Routes routeName = some route)
    (hget : route.Method = "GET")
    (hen : (effectiveCacheConfig c.config route).Enabled = true)
    (_httl : (effectiveCacheConfig c.config route).TTL ≥ 0)
    (hlo : (selectResponseConfig c.config route).StatusCode ≥ 200)
    (hhi : (selectResponseConfig c.config route).StatusCode < 300)
    (hmiss : (c.cache.get (getCacheKey env routeName route) call1.tGet).2 = false)
    (hok : (Execute env c call1 routeName).err = none)
    (hfresh : ∀ e, mapGet (Execute env c call1 routeName).cache.entries
        (getCacheKey env routeName route) = some e → call2.tGet < e.ExpiresAt) :
    ∃ r1 t, (Execute env c call1 routeName).resp = some r1 ∧
      r1.CachedAt = some t ∧
      (Execute env { c with cache := (Execute env c call1 routeName).cache } call2
        routeName).resp = some r1 ∧
      (Execute env { c with cache := (Execute env c call1 routeName).cache } call2
        routeName).err = none ∧
      (Execute env { c with cache := (Execute env c call1 routeName).cache } call2
        routeName).cache = (Execute env c call1 routeName).cache := by
  have hmiss1 : (lookupCached env c { call1 with ctxDoneFirst := false } routeName route).2
      = false := by
    simp only [lookupCached, hen, hget, and_self, if_true]
    exact hmiss
  rcases assembleResponse_cases env { call1 with ctxDoneFirst := false }
      (selectResponseConfig c.config route) with
    ⟨b, e, _, _, ha⟩ | ⟨r0, ha, hsc, _, _, _, _, _⟩
  · have hout := execute_miss_error env c { call1 with ctxDoneFirst := false } routeName route e
      hroute hmiss1 ha
    rw [Execute, hout] at hok
    cases hok
  · have hout := execute_miss_ok env c { call1 with ctxDoneFirst := false } routeName route r0
      hroute hmiss1 ha (fun _ => rfl)
    have hwb := writeBack_store env c { call1 with ctxDoneFirst := false } routeName route r0
      hen hget (by rw [hsc]; exact hlo) (by rw [hsc]; exact hhi)
    rw [hwb] at hout
    have hout1 : Execute env c call1 routeName = _ := hout
    rw [hout1] at hfresh ⊢
    have hentry := hfresh _ (mapGet_mapSet_self _ _ _)
    have hout2 := execute_hit_of_entry env
      { c with cache := (Execute env c call1 routeName).cache }
      { call2 with ctxDoneFirst := false } routeName route _ hroute hget hen
      (by rw [hout1]; exact mapGet_mapSet_self _ _ _)
      (by
        have : call2.tGet < _ := hentry
        show ¬ call2.tGet > _
        omega)
    rw [hout1] at hout2
    have hout2' : Execute env _ call2 routeName = _ := hout2
    rw [hout2']
    exact ⟨_, call1.tStamp, rfl, rfl, rfl, rfl, rfl⟩

/-- C8 at a concrete input: two calls of `test-route` of the client tests, at the times 10 and
20, the entry expiring 300 seconds after the first. -/
theorem cache_hit_returns_stored_witness :
    ∃ r1 t, (Execute sampleEnv testClient
        (sampleCall 10 [("Content-Type", "application/json")] [] false) "test-route").resp
          = some r1 ∧
      r1.CachedAt = some t ∧
      (Execute sampleEnv
        { testClient with cache := (Execute sampleEnv testClient
            (sampleCall 10 [("Content-Type", "application/json")] [] false)
            "test-route").cache }
        (sampleCall 20 [] [] false) "test-route").resp = some r1 ∧
      (Execute sampleEnv
        { testClient with cache := (Execute sampleEnv testClient
            (sampleCall 10 [("Content-Type", "application/json")] [] false)
            "test-route").cache }
        (sampleCall 20 [] [] false) "test-route").err = none ∧
      (Execute sampleEnv
        { testClient with cache := (Execute sampleEnv testClient
            (sampleCall 10 [("Content-Type", "application/json")] [] false)
            "test-route").cache }
        (sampleCall 20 [] [] false) "test-route").cache =
      (Execute sampleEnv testClient
        (sampleCall 10 [("Content-Type", "application/json")] [] false) "test-route").cache :=
  cache_hit_returns_stored sampleEnv testClient
    (sampleCall 10 [("Content-Type", "application/json")] [] false) (sampleCall 20 [] [] false)
    "test-route" (sampleRoute "GET" "/test" 0 (some testExpected) [])
    (by decide) rfl (by decide) (by decide) (by decide) (by decide) (by decide) (by decide)
    (by
      intro e he
      have hentry : mapGet (Execute sampleEnv testClient
          (sampleCall 10 [("Content-Type", "application/json")] [] false)
          "test-route").cache.entries
          (getCacheKey sampleEnv "test-route"
            (sampleRoute "GET" "/test" 0 (some testExpected) [])) =
          some { Response := some
                   { StatusCode := 200
                     Headers := [("Content-Type", ["application/json"])]
                     Body := "\"test response\""
                     ParsedBody := some "test response"
                     CachedAt := some 11
                     ContentType := "application/json" }
                 CreatedAt := 12
                 ExpiresAt := 300000000012 } := by decide
      rw [hentry] at he
      cases he
      decide)

/-- C9 as stated fails: after a cancelled call of `timeout-route` has stored its response, a
second call of that route whose context is cancelled before the delay returns the cached
response and no error. -/
theorem cancelled_hit_counterexample :
    ¬ ((ExecuteWithContext sampleEnv testClientAfterCancel
          (sampleCall 20 [("Content-Type", "application/json")] testClientAfterCancel.cache.entries
            true) "timeout-route").resp = none ∧
        (ExecuteWithContext sampleEnv testClientAfterCancel
          (sampleCall 20 [("Content-Type", "application/json")] testClientAfterCancel.cache.entries
            true) "timeout-route").err = some .ctxErr) := by
  decide

/-- C9, as amended: for a configured route with a simulated delay `> 0`, a call that misses
the cache, whose body is nil or marshals, and whose context is cancelled before the delay
elapses returns the context's error and no response. -/
theorem cancellation_wins_on_miss (env : Env β) (c : Client β) (call : Call β)
    (routeName : String) (route : RouteConfig β)
    (hroute : mapGet c.config.Routes routeName = some route)
    (hdelay : route.Timeout > 0)
    (hcancel : call.ctxDoneFirst = true)
    (hmiss : (lookupCached env c call routeName route).2 = false)
    (hser : ∀ b, (selectResponseConfig c.config route).Body = some b →
      ∃ bytes, env.marshal b = .ok bytes) :
    (ExecuteWithContext env c call routeName).resp = none ∧
    (ExecuteWithContext env c call routeName).err = some .ctxErr := by
  rcases assembleResponse_cases env call (selectResponseConfig c.config route) with
    ⟨b, e, hb, hm, _⟩ | ⟨r0, ha, _⟩
  · obtain ⟨bytes, hbytes⟩ := hser b hb
    rw [hm] at hbytes
    cases hbytes
  · rw [execute_miss_cancelled env c call routeName route r0 hroute hmiss ha hdelay hcancel]
    exact ⟨rfl, rfl⟩

/-- C9 (amended) at a concrete input: the cancelled first call of `timeout-route` of the
client tests. -/
theorem cancellation_wins_on_miss_witness :
    (ExecuteWithContext sampleEnv testClient
      (sampleCall 10 [("Content-Type", "application/json")] [] true) "timeout-route").resp
        = none ∧
    (ExecuteWithContext sampleEnv testClient
      (sampleCall 10 [("Content-Type", "application/json")] [] true) "timeout-route").err
        = some .ctxErr :=
  cancellation_wins_on_miss sampleEnv testClient
    (sampleCall 10 [("Content-Type", "application/json")] [] true) "timeout-route"
    (sampleRoute "GET" "/timeout" 1 none []) (by decide) (by decide) rfl (by decide)
    (by
      intro b _
      exact ⟨"\"" ++ b ++ "\"", rfl⟩)

/-! ## Route invalidation -/

theorem mapGet_invalidateLoop_prefixed (routeName : String)
    (scan entries : List (String × CacheEntry β)) (k : String)
    (hp : HasPrefix k (routeName ++ "_") = true) (hk : k ∈ scan.map Prod.fst) :
    mapGet (invalidateLoop routeName scan entries) k = none := by
  rw [mapGet_eq_none_iff]
  induction scan generalizing entries with
  | nil => simp at hk
  | cons p rest ih =>
    obtain ⟨key, entry⟩ := p
    have hsub : ∀ es : List (String × CacheEntry β), k ∉ es.map Prod.fst →
        k ∉ (invalidateLoop routeName rest es).map Prod.fst := fun es hes hm =>
      hes (((invalidateLoop_sublist routeName rest es).map Prod.fst).subset hm)
    by_cases hkey : key = k
    · subst hkey
      simp only [invalidateLoop, hp, if_true]
      apply hsub
      rw [← mapGet_eq_none_iff]
      exact mapGet_mapDelete_self _ _
    · have hrest : k ∈ rest.map Prod.fst := by
        simp only [List.map_cons, List.mem_cons] at hk
        rcases hk with h | h
        · exact absurd h.symm hkey
        · exact h
      by_cases hp' : HasPrefix key (routeName ++ "_") = true
      · simp only [invalidateLoop, hp', if_true]
        exact ih _ hrest
      · simp only [invalidateLoop, hp']
        exact ih _ hrest

theorem mapGet_invalidateLoop_other (routeName : String)
    (scan entries : List (String × CacheEntry β)) (k : String)
    (hp : HasPrefix k (routeName ++ "_") = false) :
    mapGet (invalidateLoop routeName scan entries) k = mapGet entries k := by
  induction scan generalizing entries with
  | nil => simp [invalidateLoop]
  | cons p rest ih =>
    obtain ⟨key, entry⟩ := p
    by_cases hp' : HasPrefix key (routeName ++ "_") = true
    · simp only [invalidateLoop, hp', if_true]
      rw [ih]
      have hk : k ≠ key := by
        intro e
        subst e
        rw [hp] at hp'
        cases hp'
      exact mapGet_mapDelete_ne _ _ _ hk
    · simp only [invalidateLoop, hp']
      exact ih _

/-- C11: `InvalidateCacheForRoute(r)` removes every entry whose key begins with `r` followed
by `_` and no other: afterwards a key with that prefix is absent and every other key is
mapped to what it was mapped to before (present exactly when it was present), whatever the
order of the scan; the configuration and `maxEntries` are untouched. -/
theorem invalidateCacheForRoute_spec (cl : Client β) (scan : List (String × CacheEntry β))
    (r : String) (hn : KeysNodup cl.cache.entries) (hs : scan.Perm cl.cache.entries) :
    KeysNodup (InvalidateCacheForRoute cl scan r).cache.entries ∧
    (InvalidateCacheForRoute cl scan r).config = cl.config ∧
    (InvalidateCacheForRoute cl scan r).cache.maxEntries = cl.cache.maxEntries ∧
    ∀ k, mapGet (InvalidateCacheForRoute cl scan r).cache.entries k =
      if HasPrefix k (r ++ "_") = true then none else mapGet cl.cache.entries k := by
  refine ⟨?_, rfl, rfl, ?_⟩
  · unfold KeysNodup at *
    exact ((invalidateLoop_sublist r scan cl.cache.entries).map Prod.fst).nodup hn
  · intro k
    simp only [InvalidateCacheForRoute]
    by_cases hp : HasPrefix k (r ++ "_") = true
    · rw [if_pos hp]
      cases hget : mapGet cl.cache.entries k with
      | none =>
        rw [mapGet_eq_none_iff] at hget ⊢
        intro hm
        exact hget (((invalidateLoop_sublist r scan cl.cache.entries).map Prod.fst).subset hm)
      | some e =>
        have hmem : k ∈ scan.map Prod.fst :=
          List.mem_map_of_mem Prod.fst (hs.symm.subset (mapGet_mem _ _ _ hget))
        exact mapGet_invalidateLoop_prefixed r scan _ k hp hmem
    · rw [if_neg hp]
      have hp' : HasPrefix k (r ++ "_") = false := by
        cases h : HasPrefix k (r ++ "_") with
        | true => exact absurd h hp
        | false => rfl
      exact mapGet_invalidateLoop_other r scan _ k hp'

/-- C11 at a concrete input: of the keys of `threeRouteClient`, scanned in reverse order,
`InvalidateCacheForRoute("b")` removes the key of route `b` and keeps the key of route `a`. -/
theorem invalidateCacheForRoute_spec_witness :
    mapGet (InvalidateCacheForRoute threeRouteClient threeRouteClient.cache.entries.reverse
        "b").cache.entries "b_GET_/x" = none ∧
    mapGet (InvalidateCacheForRoute threeRouteClient threeRouteClient.cache.entries.reverse
        "b").cache.entries "a_GET_/x" = some (sampleEntry 1 100) :=
  ⟨((invalidateCacheForRoute_spec threeRouteClient threeRouteClient.cache.entries.reverse "b"
      (by decide) (by decide)).2.2.2 "b_GET_/x").trans (by decide),
   ((invalidateCacheForRoute_spec threeRouteClient threeRouteClient.cache.entries.reverse "b"
      (by decide) (by decide)).2.2.2 "a_GET_/x").trans (by decide)⟩

/-! ## Frame properties of `set` and of the sweep -/

theorem mapDelete_of_absent {α : Type} (m : List (String × α)) (k : String)
    (h : mapGet m k = none) : mapDelete m k = m := by
  rw [mapGet_eq_none_iff] at h
  unfold mapDelete
  rw [List.filter_eq_self]
  intro a ha
  simp only [decide_eq_true_eq]
  intro e
  exact h (e ▸ List.mem_map_of_mem Prod.fst ha)

theorem mem_keys_mapDelete {α : Type} (m : List (String × α)) (k v : String)
    (hk : k ∈ m.map Prod.fst) (hne : k ≠ v) : k ∈ (mapDelete m v).map Prod.fst := by
  by_contra hcon
  rw [← mapGet_eq_none_iff, mapGet_mapDelete_ne m v k hne, mapGet_eq_none_iff] at hcon
  exact hcon hk

theorem length_mapSet_of_absent {α : Type} (m : List (String × α)) (k : String) (v : α)
    (h : mapGet m k = none) : (mapSet m k v).length = m.length + 1 := by
  simp [mapSet, mapDelete_of_absent m k h]

theorem length_mapSet_of_present {α : Type} (m : List (String × α)) (k : String) (v : α)
    (hn : KeysNodup m) (h : k ∈ m.map Prod.fst) : (mapSet m k v).length = m.length := by
  have := length_mapDelete_of_nodup m k hn h
  simp [mapSet]
  omega

theorem mapGet_cleanLoop_of_scan (now : Int) (scan entries : List (String × CacheEntry β))
    (hn : KeysNodup entries) (hs : scan.Perm entries) (k : String) :
    mapGet (cleanLoop now scan entries) k =
      match mapGet entries k with
      | none => none
      | some e => if e.ExpiresAt < now then none else some e := by
  cases h : mapGet entries k with
  | none =>
    rw [mapGet_cleanLoop_kept, h]
    intro e he
    have h' := mapGet_of_mem _ _ _ hn (hs.subset he)
    rw [h] at h'
    cases h'
  | some e =>
    have hmem : (k, e) ∈ scan := hs.symm.subset (mapGet_mem _ _ _ h)
    by_cases hlt : e.ExpiresAt < now
    · rw [mapGet_cleanLoop_expired now scan entries k ⟨e, hmem, hlt⟩]
      simp [hlt]
    · rw [mapGet_cleanLoop_kept, h]
      · simp [hlt]
      · intro e' he' hlt'
        have h' := mapGet_of_mem _ _ _ hn (hs.subset he')
        rw [h] at h'
        cases h'
        exact hlt hlt'

/-- C15: on a cache with `maxEntries = 0`, `set(k, ...)` leaves every key other than `k`
mapped to exactly what it was mapped to before; the entry count grows by one when `k` is new
and stays the same when `k` was present. -/
theorem unbounded_set_frame (c : Cache β) (scan : List (String × CacheEntry β)) (k : String)
    (v : Option (Response β)) (ttl now : Int) (hmax : c.maxEntries = 0)
    (hn : KeysNodup c.entries) :
    (∀ k', k' ≠ k → mapGet (c.set scan k v ttl now).entries k' = mapGet c.entries k') ∧
    (mapGet c.entries k = none →
      (c.set scan k v ttl now).entries.length = c.entries.length + 1) ∧
    (mapGet c.entries k ≠ none →
      (c.set scan k v ttl now).entries.length = c.entries.length) := by
  have hno : ¬ (c.maxEntries > 0 ∧ (c.entries.length : Int) ≥ c.maxEntries) := by
    rw [hmax]
    intro h
    exact absurd h.1 (by decide)
  have hset : (c.set scan k v ttl now).entries =
      mapSet c.entries k { Response := v, CreatedAt := now, ExpiresAt := now + ttl } := by
    simp only [Cache.set, hno, if_false]
  rw [hset]
  refine ⟨?_, ?_, ?_⟩
  · intro k' hk'
    exact mapGet_mapSet_ne _ _ _ _ hk'
  · intro habsent
    exact length_mapSet_of_absent _ _ _ habsent
  · intro hpresent
    apply length_mapSet_of_present _ _ _ hn
    by_contra hcon
    exact hpresent ((mapGet_eq_none_iff _ _).2 hcon)

/-- C15 at a concrete input: a `set` of a new key on the unbounded `boundaryCache`. -/
theorem unbounded_set_frame_witness :
    (boundaryCache.set boundaryCache.entries "z" (some sampleResponse) 5 3).entries.length
      = boundaryCache.entries.length + 1 :=
  (unbounded_set_frame boundaryCache boundaryCache.entries "z" (some sampleResponse) 5 3 rfl
    (by decide)).2.1 (by decide)

/-- C16: on a cache with `maxEntries > 0` holding exactly `maxEntries` entries, a `set` of a
key `k` that is present and is not the eviction victim removes the victim, a stored key
different from `k`, and then overwrites `k`: afterwards the cache holds `maxEntries - 1`
entries, the victim is absent and `k` is mapped to the new entry. -/
theorem overwrite_at_capacity_evicts (c : Cache β) (scan : List (String × CacheEntry β))
    (k : String) (v : Option (Response β)) (ttl now : Int)
    (hm : 0 < c.maxEntries) (hlen : (c.entries.length : Int) = c.maxEntries)
    (hn : KeysNodup c.entries) (hs : scan.Perm c.entries)
    (hk : k ∈ c.entries.map Prod.fst) (hv : evictionVictim scan ≠ k) :
    evictionVictim scan ∈ c.entries.map Prod.fst ∧
    ((c.set scan k v ttl now).entries.length : Int) = c.maxEntries - 1 ∧
    mapGet (c.set scan k v ttl now).entries (evictionVictim scan) = none ∧
    mapGet (c.set scan k v ttl now).entries k =
      some { Response := v, CreatedAt := now, ExpiresAt := now + ttl } := by
  have hfull : c.maxEntries > 0 ∧ (c.entries.length : Int) ≥ c.maxEntries :=
    ⟨hm, by omega⟩
  have hne : scan ≠ [] := by
    intro e
    have hl := hs.length_eq
    rw [e] at hl
    simp at hl
    omega
  have hvic : evictionVictim scan ∈ c.entries.map Prod.fst :=
    (hs.map Prod.fst).subset (evictionVictim_mem scan hne)
  have hset : (c.set scan k v ttl now).entries =
      mapSet (mapDelete c.entries (evictionVictim scan)) k
        { Response := v, CreatedAt := now, ExpiresAt := now + ttl } := by
    simp only [Cache.set, hfull, and_self, if_true]
  rw [hset]
  have h1 := length_mapDelete_of_nodup c.entries _ hn hvic
  have hk1 : k ∈ (mapDelete c.entries (evictionVictim scan)).map Prod.fst :=
    mem_keys_mapDelete _ _ _ hk (fun e => hv e.symm)
  have h2 := length_mapSet_of_present (mapDelete c.entries (evictionVictim scan)) k
    { Response := v, CreatedAt := now, ExpiresAt := now + ttl }
    (keysNodup_mapDelete _ _ hn) hk1
  refine ⟨hvic, by omega, ?_, mapGet_mapSet_self _ _ _⟩
  rw [mapGet_mapSet_ne _ _ _ _ hv]
  exact mapGet_mapDelete_self _ _

/-- C16 at a concrete input: on `fullCache`, overwriting `b` evicts `a`. -/
theorem overwrite_at_capacity_evicts_witness :
    ((fullCache.set fullCache.entries "b" (some sampleResponse) 5 3).entries.length : Int)
      = 2 - 1 ∧
    mapGet (fullCache.set fullCache.entries "b" (some sampleResponse) 5 3).entries "a"
      = none :=
  ⟨(overwrite_at_capacity_evicts fullCache fullCache.entries "b" (some sampleResponse) 5 3
      (by decide) (by decide) (by decide) (List.Perm.refl _) (by decide) (by decide)).2.1,
   (overwrite_at_capacity_evicts fullCache fullCache.entries "b" (some sampleResponse) 5 3
      (by decide) (by decide) (by decide) (List.Perm.refl _) (by decide) (by decide)).2.2.1⟩

/-- C18: for times `t ≤ t'`, `get(k)` at `t'` on the cache swept by `cleanExpiredEntries` at
`t` returns what `get(k)` at `t'` returns on the unswept cache. -/
theorem sweep_invisible_to_get (c : Cache β) (scan : List (String × CacheEntry β))
    (k : String) (t t' : Int) (hn : KeysNodup c.entries) (hs : scan.Perm c.entries)
    (ht : t ≤ t') : (c.cleanExpiredEntries scan t).get k t' = c.get k t' := by
  simp only [Cache.get, Cache.cleanExpiredEntries]
  rw [mapGet_cleanLoop_of_scan t scan c.entries hn hs k]
  cases h : mapGet c.entries k with
  | none => rfl
  | some e =>
    by_cases hlt : e.ExpiresAt < t
    · have hgt : t' > e.ExpiresAt := by omega
      simp [hlt, hgt]
    · simp [hlt]

/-- C18 at a concrete input: the sweep at time 6 drops the entry of `boundaryCache`, which
a `get` at time 7 does not find either way. -/
theorem sweep_invisible_to_get_witness :
    (boundaryCache.cleanExpiredEntries boundaryCache.entries 6).get "k" 7 =
      boundaryCache.get "k" 7 :=
  sweep_invisible_to_get boundaryCache boundaryCache.entries "k" 6 7 (by decide)
    (List.Perm.refl _) (by decide)

/-! ## Write-back -/

theorem execute_miss_cache (env : Env β) (c : Client β) (call : Call β) (routeName : String)
    (route : RouteConfig β) (response : Response β)
    (hroute : mapGet c.config.Routes routeName = some route)
    (hmiss : (lookupCached env c call routeName route).2 = false)
    (ha : assembleResponse env call (selectResponseConfig c.config route) = .ok response) :
    (ExecuteWithContext env c call routeName).cache =
      (writeBack env c call routeName route response).2 := by
  by_cases hnc : route.Timeout > 0 → call.ctxDoneFirst = false
  · rw [execute_miss_ok env c call routeName route response hroute hmiss ha hnc]
  · have hdelay : route.Timeout > 0 := by
      by_contra h
      exact hnc (fun h' => absurd h' h)
    have hcancel : call.ctxDoneFirst = true := by
      cases hc : call.ctxDoneFirst with
      | true => rfl
      | false => exact absurd (fun _ => hc) hnc
    rw [execute_miss_cancelled env c call routeName route response hroute hmiss ha hdelay
      hcancel]

theorem assembleResponse_of_serializes (env : Env β) (call : Call β) (rc : ResponseConfig β)
    (hser : ∀ b, rc.Body = some b → ∃ bytes, env.marshal b = .ok bytes) :
    ∃ r, assembleResponse env call rc = .ok r ∧ r.StatusCode = rc.StatusCode ∧
      r.ParsedBody = rc.Body ∧ r.CachedAt = none := by
  rcases assembleResponse_cases env call rc with ⟨b, e, hb, hm, _⟩ | ⟨r, ha, hsc, hpb, _, _, _, hca⟩
  · obtain ⟨bytes, hbytes⟩ := hser b hb
    rw [hm] at hbytes
    cases hbytes
  · exact ⟨r, ha, hsc, hpb, hca⟩

/-- C13: for a call on a configured route that misses the cache and whose body is nil or
marshals: when the governing policy is enabled, the method is `GET` and the status code is in
`[200, 300)`, the response is stamped with `CachedAt` and stored under the route's key (and is
the response returned when the call is not cancelled); in every other case the cache is left
as it was and the response returned has no `CachedAt`. -/
theorem write_back_condition (env : Env β) (c : Client β) (call : Call β)
    (routeName : String) (route : RouteConfig β)
    (hroute : mapGet c.config.Routes routeName = some route)
    (hmiss : (lookupCached env c call routeName route).2 = false)
    (hser : ∀ b, (selectResponseConfig c.config route).Body = some b →
      ∃ bytes, env.marshal b = .ok bytes) :
    (((effectiveCacheConfig c.config route).Enabled = true ∧ route.Method = "GET" ∧
        (selectResponseConfig c.config route).StatusCode ≥ 200 ∧
        (selectResponseConfig c.config route).StatusCode < 300) →
      ∃ r ttl, r.CachedAt = some call.tStamp ∧
        (ExecuteWithContext env c call routeName).cache =
          c.cache.set call.evictScan (getCacheKey env routeName route) (some r) ttl call.tSet ∧
        mapGet (ExecuteWithContext env c call routeName).cache.entries
            (getCacheKey env routeName route) =
          some { Response := some r, CreatedAt := call.tSet, ExpiresAt := call.tSet + ttl } ∧
        ((route.Timeout > 0 → call.ctxDoneFirst = false) →
          (ExecuteWithContext env c call routeName).resp = some r)) ∧
    (¬ ((effectiveCacheConfig c.config route).Enabled = true ∧ route.Method = "GET" ∧
        (selectResponseConfig c.config route).StatusCode ≥ 200 ∧
        (selectResponseConfig c.config route).StatusCode < 300) →
      (ExecuteWithContext env c call routeName).cache = c.cache ∧
      ((route.Timeout > 0 → call.ctxDoneFirst = false) →
        ∃ r, (ExecuteWithContext env c call routeName).resp = some r ∧ r.CachedAt = none)) := by
  obtain ⟨r0, ha, hsc, _, hca⟩ :=
    assembleResponse_of_serializes env call (selectResponseConfig c.config route) hser
  have hcache := execute_miss_cache env c call routeName route r0 hroute hmiss ha
  constructor
  · rintro ⟨hen, hget, hlo, hhi⟩
    have hwb := writeBack_store env c call routeName route r0 hen hget
      (by rw [hsc]; exact hlo) (by rw [hsc]; exact hhi)
    refine ⟨{ r0 with CachedAt := some call.tStamp },
      (if wrap64 ((effectiveCacheConfig c.config route).TTL * Second) = 0 then 5 * Minute
        else wrap64 ((effectiveCacheConfig c.config route).TTL * Second)), rfl, ?_, ?_, ?_⟩
    · rw [hcache, hwb]
    · rw [hcache, hwb]
      exact mapGet_mapSet_self _ _ _
    · intro hnc
      rw [execute_miss_ok env c call routeName route r0 hroute hmiss ha hnc, hwb]
  · intro hcond
    have hwb := writeBack_skip env c call routeName route r0 (by rw [hsc]; exact hcond)
    refine ⟨by rw [hcache, hwb], ?_⟩
    intro hnc
    rw [execute_miss_ok env c call routeName route r0 hroute hmiss ha hnc, hwb]
    exact ⟨r0, rfl, hca⟩

/-- C13 at a concrete input: the first call of `test-route` of the client tests stores its
response, stamped with the time 11. -/
theorem write_back_condition_witness :
    ∃ r ttl, r.CachedAt = some 11 ∧
      mapGet (ExecuteWithContext sampleEnv testClient
          (sampleCall 10 [("Content-Type", "application/json")] [] false)
          "test-route").cache.entries "test-route_GET_/test" =
        some { Response := some r, CreatedAt := 12, ExpiresAt := 12 + ttl } := by
  obtain ⟨r, ttl, hca, _, hget, _⟩ :=
    (write_back_condition sampleEnv testClient
      (sampleCall 10 [("Content-Type", "application/json")] [] false) "test-route"
      (sampleRoute "GET" "/test" 0 (some testExpected) []) (by decide) (by decide)
      (fun b _ => ⟨"\"" ++ b ++ "\"", rfl⟩)).1 (by decide)
  exact ⟨r, ttl, hca, hget⟩

/-- C17: for a `GET` route with the governing cache policy enabled, a status code in
`[200, 300)` and a simulated delay `> 0`, a call that misses the cache and whose context is
cancelled before the delay elapses returns an error and no response; and when the body is nil
or marshals, the error is the context's and the cache already holds the computed response
under the route's key, where a `get` at any time not after its expiry finds it. -/
theorem cancelled_call_leaves_entry (env : Env β) (c : Client β) (call : Call β)
    (routeName : String) (route : RouteConfig β)
    (hroute : mapGet c.config.Routes routeName = some route)
    (hget : route.Method = "GET")
    (hen : (effectiveCacheConfig c.config route).Enabled = true)
    (hlo : (selectResponseConfig c.config route).StatusCode ≥ 200)
    (hhi : (selectResponseConfig c.config route).StatusCode < 300)
    (hdelay : route.Timeout > 0)
    (hmiss : (c.cache.get (getCacheKey env routeName route) call.tGet).2 = false)
    (hcancel : call.ctxDoneFirst = true) :
    (ExecuteWithContext env c call routeName).resp = none ∧
    (ExecuteWithContext env c call routeName).err ≠ none ∧
    ((∀ b, (selectResponseConfig c.config route).Body = some b →
        ∃ bytes, env.marshal b = .ok bytes) →
      (ExecuteWithContext env c call routeName).err = some .ctxErr ∧
      ∃ e r, mapGet (ExecuteWithContext env c call routeName).cache.entries
          (getCacheKey env routeName route) = some e ∧
        e.Response = some r ∧
        r.StatusCode = (selectResponseConfig c.config route).StatusCode ∧
        r.ParsedBody = (selectResponseConfig c.config route).Body ∧
        r.CachedAt = some call.tStamp ∧
        ∀ t, t ≤ e.ExpiresAt →
          (ExecuteWithContext env c call routeName).cache.get
            (getCacheKey env routeName route) t = (some r, true)) := by
  have hmiss1 : (lookupCached env c call routeName route).2 = false := by
    simp only [lookupCached, hen, hget, and_self, if_true]
    exact hmiss
  rcases assembleResponse_cases env call (selectResponseConfig c.config route) with
    ⟨b, e, hb, hm, ha⟩ | ⟨r0, ha, hsc, hpb, _, _, _, _⟩
  · rw [execute_miss_error env c call routeName route e hroute hmiss1 ha]
    refine ⟨rfl, by simp, ?_⟩
    intro hser
    obtain ⟨bytes, hbytes⟩ := hser b hb
    rw [hm] at hbytes
    cases hbytes
  · have hwb := writeBack_store env c call routeName route r0 hen hget
      (by rw [hsc]; exact hlo) (by rw [hsc]; exact hhi)
    rw [execute_miss_cancelled env c call routeName route r0 hroute hmiss1 ha hdelay hcancel,
      hwb]
    refine ⟨rfl, by simp, ?_⟩
    intro _
    refine ⟨rfl, _, { r0 with CachedAt := some call.tStamp }, mapGet_mapSet_self _ _ _, rfl,
      hsc, hpb, rfl, ?_⟩
    intro t ht
    have hnot : ¬ t > call.tSet +
        (if wrap64 ((effectiveCacheConfig c.config route).TTL * Second) = 0 then 5 * Minute
          else wrap64 ((effectiveCacheConfig c.config route).TTL * Second)) := by
      have ht' : t ≤ call.tSet + _ := ht
      omega
    simp only [Cache.get, Cache.set, mapGet_mapSet_self, hnot, if_false]

/-- C17 at a concrete input: the cancelled first call of `timeout-route` of the client tests
leaves its response in the cache, where a `get` at time 20 finds it. -/
theorem cancelled_call_leaves_entry_witness :
    (ExecuteWithContext sampleEnv testClient
      (sampleCall 10 [("Content-Type", "application/json")] [] true) "timeout-route").resp
        = none ∧
    ((ExecuteWithContext sampleEnv testClient
      (sampleCall 10 [("Content-Type", "application/json")] [] true)
      "timeout-route").cache.get "timeout-route_GET_/timeout" 20).2 = true :=
  ⟨(cancelled_call_leaves_entry sampleEnv testClient
      (sampleCall 10 [("Content-Type", "application/json")] [] true) "timeout-route"
      (sampleRoute "GET" "/timeout" 1 none []) (by decide) rfl (by decide) (by decide)
      (by decide) (by decide) (by decide) rfl).1,
   by decide⟩

/-! ## Effective policy and TTL -/

theorem wrap64_of_inRange (x : Int) (h1 : -(2 : Int) ^ 63 ≤ x) (h2 : x < (2 : Int) ^ 63) :
    wrap64 x = x := by
  unfold wrap64
  norm_num at h1 h2 ⊢
  omega

theorem effectiveCacheConfig_eq (cfg : Config β) (route : RouteConfig β) :
    effectiveCacheConfig cfg route =
      if route.Cache.Enabled = true then route.Cache else cfg.GlobalCache := by
  unfold effectiveCacheConfig
  cases route.Cache.Enabled <;> simp

/-- When the product of the governing TTL and `time.Second` fits in 64 bits, the entry stored
by a call satisfies `ExpiresAt = CreatedAt + T` seconds, `T` being the TTL when it is not zero
and 300 when it is. -/
theorem stored_entry_expiry (env : Env β) (c : Client β) (call : Call β)
    (routeName : String) (route : RouteConfig β)
    (hroute : mapGet c.config.Routes routeName = some route)
    (hmiss : (lookupCached env c call routeName route).2 = false)
    (hser : ∀ b, (selectResponseConfig c.config route).Body = some b →
      ∃ bytes, env.marshal b = .ok bytes)
    (hen : (effectiveCacheConfig c.config route).Enabled = true)
    (hget : route.Method = "GET")
    (hlo : (selectResponseConfig c.config route).StatusCode ≥ 200)
    (hhi : (selectResponseConfig c.config route).StatusCode < 300)
    (h1 : -(2 : Int) ^ 63 ≤ (effectiveCacheConfig c.config route).TTL * Second)
    (h2 : (effectiveCacheConfig c.config route).TTL * Second < (2 : Int) ^ 63) :
    ∃ e, mapGet (ExecuteWithContext env c call routeName).cache.entries
        (getCacheKey env routeName route) = some e ∧
      e.CreatedAt = call.tSet ∧
      e.ExpiresAt = e.CreatedAt +
        (if (effectiveCacheConfig c.config route).TTL = 0 then 300
          else (effectiveCacheConfig c.config route).TTL) * Second := by
  obtain ⟨r0, ha, hsc, _, _⟩ :=
    assembleResponse_of_serializes env call (selectResponseConfig c.config route) hser
  have hcache := execute_miss_cache env c call routeName route r0 hroute hmiss ha
  have hwb := writeBack_store env c call routeName route r0 hen hget
    (by rw [hsc]; exact hlo) (by rw [hsc]; exact hhi)
  rw [hcache, hwb]
  refine ⟨_, mapGet_mapSet_self _ _ _, rfl, ?_⟩
  rw [wrap64_of_inRange _ h1 h2]
  by_cases hz : (effectiveCacheConfig c.config route).TTL = 0
  · simp [hz, Minute, Second]
  · have hs : (effectiveCacheConfig c.config route).TTL * Second ≠ 0 := by
      unfold Second
      omega
    simp [hz, hs]

/-- C14 at the failing inputs: with a TTL of 9999999999 seconds the product with
`time.Second` wraps around in 64 bits, so the entry stored at time 12 expires at
`12 - 8446744074709551616`, not at `12 + 9999999999` seconds, and a `get` at time 20 does not
find it; with a TTL of `2 ^ 55` seconds the product wraps to zero, so the entry expires 300
seconds after its creation although the TTL is not zero. -/
theorem huge_ttl_wraps :
    ((mapGet (Execute sampleEnv (ttlClient 9999999999) (sampleCall 10 [] [] false)
          "r").cache.entries "r_GET_/r").map (fun e => (e.CreatedAt, e.ExpiresAt))
        = some (12, 12 - 8446744074709551616) ∧
      (12 : Int) - 8446744074709551616 ≠ 12 + 9999999999 * Second ∧
      ((Execute sampleEnv (ttlClient 9999999999) (sampleCall 10 [] [] false)
          "r").cache.get "r_GET_/r" 20).2 = false) ∧
    ((mapGet (Execute sampleEnv (ttlClient (2 ^ 55)) (sampleCall 10 [] [] false)
          "r").cache.entries "r_GET_/r").map (fun e => (e.CreatedAt, e.ExpiresAt))
        = some (12, 12 + 300 * Second) ∧
      (12 : Int) + 300 * Second ≠ 12 + 2 ^ 55 * Second) := by
  decide

/-! ## Cache keys and route names -/

theorem sep_prefix_unique (a b x y : List Char) (ha : '_' ∉ a) (hb : '_' ∉ b)
    (h : a ++ '_' :: x = b ++ '_' :: y) : a = b := by
  induction a generalizing b with
  | nil =>
    cases b with
    | nil => rfl
    | cons d b' =>
      simp only [List.nil_append, List.cons_append, List.cons.injEq] at h
      exact absurd (h.1 ▸ List.mem_cons_self _ _) hb
  | cons c a' ih =>
    cases b with
    | nil =>
      simp only [List.nil_append, List.cons_append, List.cons.injEq] at h
      exact absurd (h.1 ▸ List.mem_cons_self _ _) ha
    | cons d b' =>
      simp only [List.cons_append, List.cons.injEq] at h
      have ha' : '_' ∉ a' := fun hm => ha (List.mem_cons_of_mem _ hm)
      have hb' : '_' ∉ b' := fun hm => hb (List.mem_cons_of_mem _ hm)
      rw [h.1, ih b' ha' hb' h.2]

theorem data_append_keeps_head (r s t : String)
    (h : ∃ rest, s.data = r.data ++ '_' :: rest) :
    ∃ rest, (s ++ t).data = r.data ++ '_' :: rest := by
  obtain ⟨rest, hrest⟩ := h
  refine ⟨rest ++ t.data, ?_⟩
  rw [String.data_append, hrest]
  simp

theorem getCacheKey_data (env : Env β) (routeName : String) (route : RouteConfig β) :
    ∃ rest, (getCacheKey env routeName route).data = routeName.data ++ '_' :: rest := by
  have hbase : ∃ rest, (routeName ++ "_" ++ route.Method ++ "_" ++ route.Path).data =
      routeName.data ++ '_' :: rest := by
    refine ⟨route.Method.data ++ '_' :: route.Path.data, ?_⟩
    have hsep : ("_" : String).data = ['_'] := rfl
    simp only [String.data_append, hsep, List.append_assoc, List.singleton_append,
      List.cons_append, List.nil_append]
  unfold getCacheKey
  split_ifs
  · exact data_append_keeps_head _ _ _ (data_append_keeps_head _ _ _ hbase)
  · exact data_append_keeps_head _ _ _ hbase
  · exact data_append_keeps_head _ _ _ hbase
  · exact hbase

/-- Route names without the separator `_` get different cache keys. -/
theorem getCacheKey_ne_of_no_separator (env : Env β) (r r' : String)
    (route route' : RouteConfig β) (hne : r ≠ r') (hr : '_' ∉ r.data) (hr' : '_' ∉ r'.data) :
    getCacheKey env r route ≠ getCacheKey env r' route' := by
  intro h
  obtain ⟨x, hx⟩ := getCacheKey_data env r route
  obtain ⟨y, hy⟩ := getCacheKey_data env r' route'
  rw [h, hy] at hx
  exact hne (String.ext (sep_prefix_unique _ _ _ _ hr hr' hx.symm))

/-- For route names without the separator `_`, the key of one route does not have the prefix
that `InvalidateCacheForRoute` matches for another. -/
theorem hasPrefix_other_route (env : Env β) (r r' : String) (route' : RouteConfig β)
    (hne : r ≠ r') (hr : '_' ∉ r.data) (hr' : '_' ∉ r'.data) :
    HasPrefix (getCacheKey env r' route') (r ++ "_") = false := by
  cases hp : HasPrefix (getCacheKey env r' route') (r ++ "_") with
  | false => rfl
  | true =>
    exfalso
    obtain ⟨y, hy⟩ := getCacheKey_data env r' route'
    unfold HasPrefix at hp
    rw [List.isPrefixOf_iff_prefix] at hp
    obtain ⟨t, ht⟩ := hp
    rw [hy, String.data_append] at ht
    have hsep : ("_" : String).data = ['_'] := rfl
    rw [hsep, List.append_assoc] at ht
    exact hne (String.ext (sep_prefix_unique _ _ _ _ hr hr' ht))

/-- For route names without the separator `_`, `InvalidateCacheForRoute(r)` leaves the entry
stored under the key of another route as it was. -/
theorem invalidate_keeps_other_route (env : Env β) (cl : Client β)
    (scan : List (String × CacheEntry β)) (r r' : String) (route' : RouteConfig β)
    (hne : r ≠ r') (hr : '_' ∉ r.data) (hr' : '_' ∉ r'.data) :
    mapGet (InvalidateCacheForRoute cl scan r).cache.entries (getCacheKey env r' route') =
      mapGet cl.cache.entries (getCacheKey env r' route') :=
  mapGet_invalidateLoop_other r scan _ _ (hasPrefix_other_route env r r' route' hne hr hr')

/-- C12 at the failing input: the cache of `threeRouteClient` holds an entry under the key of
route `a_b`; `InvalidateCacheForRoute("a")` removes it together with the entry of route `a`,
and keeps the entry of route `b`. -/
theorem invalidate_removes_prefixed_route :
    getCacheKey sampleEnv "a_b" (sampleRoute "GET" "/x" 0 none []) = "a_b_GET_/x" ∧
    mapGet threeRouteClient.cache.entries "a_b_GET_/x" = some (sampleEntry 2 100) ∧
    mapGet (InvalidateCacheForRoute threeRouteClient threeRouteClient.cache.entries
      "a").cache.entries "a_b_GET_/x" = none ∧
    (InvalidateCacheForRoute threeRouteClient threeRouteClient.cache.entries
      "a").cache.entries = [("b_GET_/x", sampleEntry 3 100)] := by
  decide

/-- C19 at the failing input: the routes `a_GET` (path `/x`) and `a` (path `GET_/x`) of
`collidingClient` get the same cache key, and a call of route `a` after a call of route
`a_GET` is served the cached response of `a_GET`, with status 201 and body `first`, instead of
its own response with status 200. -/
theorem cache_keys_collide :
    getCacheKey sampleEnv "a_GET"
        (sampleRoute "GET" "/x" 0
          (some { StatusCode := 201, Headers := [], Body := some "first" }) []) =
      getCacheKey sampleEnv "a"
        (sampleRoute "GET" "GET_/x" 0
          (some { StatusCode := 200, Headers := [], Body := some "second" }) []) ∧
    (Execute sampleEnv
        { collidingClient with
          cache := (Execute sampleEnv collidingClient (sampleCall 10 [] [] false)
            "a_GET").cache }
        (sampleCall 20 [] [] false) "a").resp =
      some { StatusCode := 201, Headers := [], Body := "\"first\""
             ParsedBody := some "first", CachedAt := some 11, ContentType := "" } := by
  decide

end HttpMockClient
